import Mathlib

/-!
QF101 order-book reconstruction (`cgate/Everything.cpp`).

A shallow embedding of the order-book part of `Everything.cpp`:
the `OrderBook` class, the BCD price decoder and `fullOrderLogCallback`.

Modelling conventions.

* `std::map<K, V>` is an association list kept in ascending key order
  (`SMap`); `operator[]`, assignment through `operator[]` and `erase` are
  `SMap.index`, `SMap.insert` and `SMap.erase`.  The functions do not need the
  list to be sorted; sortedness (`SMap.WF`) is the representation invariant of
  `std::map` and is assumed only where iteration order matters.
* `Real` (the price type of the source, a floating-point number) is modelled
  by the exact rationals; rounding is not modelled.
* `int` is modelled by `Int`.  Signed overflow is undefined in C++ and is
  outside the model.
* `assert` aborts the process: the callback then ends in `Outcome.aborted`,
  carrying the memory at the moment of the abort.
* Console output (`cout`) is not modelled.
-/

namespace QF101

/-! ## Ordered maps -/

/-- Association list standing for a `std::map`. -/
abbrev SMap (K V : Type) := List (K × V)

namespace SMap

variable {K V : Type}

/-- Lookup of a key (`map::find`), `none` when the key is absent. -/
def find [DecidableEq K] : SMap K V → K → Option V
  | [], _ => none
  | (k', v') :: t, k => if k' = k then some v' else find t k

/-- Assignment `m[k] = v`: replaces the value of an existing key, otherwise
inserts the pair at its place in ascending key order. -/
def insert [LinearOrder K] (k : K) (v : V) : SMap K V → SMap K V
  | [] => [(k, v)]
  | (k', v') :: t =>
    if k < k' then (k, v) :: (k', v') :: t
    else if k = k' then (k, v) :: t
    else (k', v') :: insert k v t

/-- Removal `m.erase(k)`. -/
def erase [DecidableEq K] (k : K) : SMap K V → SMap K V
  | [] => []
  | (k', v') :: t => if k' = k then erase k t else (k', v') :: erase k t

/-- The map after evaluating `m[k]`: a missing key is created with the
value-initialised element `d`. -/
def index [LinearOrder K] (m : SMap K V) (k : K) (d : V) : SMap K V :=
  match find m k with
  | some _ => m
  | none => insert k d m

/-- The value read by `m[k]`. -/
def get [DecidableEq K] (m : SMap K V) (k : K) (d : V) : V :=
  (find m k).getD d

/-- The keys in iteration order. -/
def keys (m : SMap K V) : List K := m.map Prod.fst

/-- Representation invariant of `std::map`: strictly ascending keys. -/
def WF [LinearOrder K] (m : SMap K V) : Prop := (keys m).Pairwise (· < ·)

instance instDecidableWF [LinearOrder K] (m : SMap K V) : Decidable (WF m) :=
  inferInstanceAs (Decidable ((keys m).Pairwise (· < ·)))

end SMap

/-! ## Data model -/

/-- The price type `Real` of the source, over exact rationals. -/
abbrev Real := ℚ

/-- Values of `enum OrderAction`. -/
def OrderActionDelete : Int := 0

/-- Values of `enum OrderAction`. -/
def OrderActionAdd : Int := 1

/-- Values of `enum OrderAction`. -/
def OrderActionReduce : Int := 2

/-- Bit `OrderStatusNonSystem = 0x04` of `enum OrderStatus`. -/
def OrderStatusNonSystem : Int := 0x04

/-- Bit `OrderStatusEndOfTransaction = 0x1000` of `enum OrderStatus`. -/
def OrderStatusEndOfTransaction : Int := 0x1000

/-- The anonymous enum of `OrderBook::isReadyForAssembly`. -/
inductive Readiness
  | NotReady
  | AlmostReady
  | Ready
  deriving DecidableEq, Repr

/-- Numeric value of the enumerators (`NotReady = 0 < AlmostReady = 1 < Ready = 2`). -/
def Readiness.rank : Readiness → Nat
  | .NotReady => 0
  | .AlmostReady => 1
  | .Ready => 2

/-- The `BidAndAsk` struct. -/
structure BidAndAsk where
  bid : Real
  ask : Real
  deriving DecidableEq, Repr

/-- The `OrderBook` class: two price ladders and the two public flags. -/
structure OrderBook where
  bids : SMap Real Int
  asks : SMap Real Int
  isConsistent : Bool
  isReadyForAssembly : Readiness
  deriving DecidableEq, Repr

namespace OrderBook

/-- The constructor `OrderBook::OrderBook()`. -/
def new : OrderBook :=
  { bids := [], asks := [], isConsistent := false, isReadyForAssembly := .Ready }

/-- The method `GetBestBid`: `0` on an empty side, else the key at `rbegin()`. -/
def GetBestBid (o : OrderBook) : Real :=
  match o.bids.getLast? with
  | none => 0
  | some kv => kv.1

/-- The method `GetBestAsk`: `0` on an empty side, else the key at `begin()`. -/
def GetBestAsk (o : OrderBook) : Real :=
  match o.asks.head? with
  | none => 0
  | some kv => kv.1

/-- The method `GetPrice`. -/
def GetPrice (o : OrderBook) : Real :=
  let bid := o.GetBestBid
  let ask := o.GetBestAsk
  if bid = 0 ∧ ask = 0 then 0
  else if bid ≠ 0 ∧ ask ≠ 0 then (1 / 2) * (bid + ask)
  else bid + ask

/-- The body of `ProcessOrder` on the selected bucket. -/
def processBucket (bucket : SMap Real Int) (increase : Bool) (price : Real)
    (volume : Int) (amountRest : Int) : SMap Real Int :=
  let b1 :=
    if amountRest ≠ -1 then
      -- bucket[price] = amountRest
      SMap.insert price amountRest (SMap.index bucket price 0)
    else if increase then
      -- bucket[price] += volume
      SMap.insert price (SMap.get bucket price 0 + volume) (SMap.index bucket price 0)
    else
      -- bucket[price] -= volume
      SMap.insert price (SMap.get bucket price 0 - volume) (SMap.index bucket price 0)
  -- if (bucket[price] == 0) bucket.erase(price)
  let b2 := SMap.index b1 price 0
  if SMap.get b1 price 0 = 0 then SMap.erase price b2 else b2

/-- The method `ProcessOrder(bid, increase, price, volume, amountRest)`. -/
def ProcessOrder (o : OrderBook) (bid : Bool) (increase : Bool) (price : Real)
    (volume : Int) (amountRest : Int) : OrderBook :=
  if bid then { o with bids := processBucket o.bids increase price volume amountRest }
  else { o with asks := processBucket o.asks increase price volume amountRest }

/-- The predicate asserted by `Verify`: all volumes on both sides are `> 0`. -/
def Verify (o : OrderBook) : Bool :=
  o.bids.all (fun kv => decide (0 < kv.2)) && o.asks.all (fun kv => decide (0 < kv.2))

end OrderBook

/-! ## The price decoder -/

/-- The table `powersOf10`. -/
def powersOf10 : List Real := [1, 10, 100, 1000, 10000, 100000, 1000000, 10000000]

/-- What `cg_bcd_get` extracts from a packed decimal: the integer part
(`int64_t`) and the scale (`int8_t`). -/
structure cg_bcd where
  intpart : Int
  scale : Int
  deriving DecidableEq, Repr

/-- Constants and memory the callback reads but does not own.
`orders_log_index` is `FullOrderLog::orders_log_index` (declared in a header
that is not part of the sources); `beyondTable i` is what a read of
`powersOf10[i]` finds when `i` lies past the eight entries of the table, the
source making no bounds check. -/
structure Env where
  orders_log_index : Nat
  beyondTable : Nat → Real

/-- The conversion `(size_t)scale` of a signed scale to a 64-bit index. -/
def size_t_of (scale : Int) : Nat := (scale % 18446744073709551616).toNat

/-- The read `powersOf10[i]`. -/
def readPowersOf10 (env : Env) (i : Nat) : Real :=
  match powersOf10.get? i with
  | some p => p
  | none => env.beyondTable i

/-- The function `bcdToDouble`. -/
def bcdToDouble (env : Env) (bcd : cg_bcd) : Real :=
  (bcd.intpart : Real) / readPowersOf10 env (size_t_of bcd.scale)

/-! ## The engine -/

/-- The fields of `FullOrderLog::orders_log` that the callback reads. -/
structure orders_log where
  isin_id : Int
  dir : Int
  action : Int
  status : Int
  price : cg_bcd
  amount : Int
  amount_rest : Int
  deriving DecidableEq, Repr

/-- The messages the callback distinguishes by `msg->type`. -/
inductive cg_msg_t
  | CG_MSG_TN_COMMIT
  | CG_MSG_STREAM_DATA (msg_index : Nat) (ol : orders_log)
  | other
  deriving DecidableEq, Repr

/-- The global maps.  Of an instrument description only the `name` is kept. -/
structure Engine where
  futureInfo : SMap Int String
  optionInfo : SMap Int String
  orderBooks : SMap Int OrderBook
  orderBookShapshots : SMap Int BidAndAsk
  deriving DecidableEq, Repr

/-- How a call of the callback ends: it returns `CG_ERR_OK`, or an `assert`
fails and the process aborts with the memory as it then is. -/
inductive Outcome
  | ok (s : Engine)
  | aborted (s : Engine)
  deriving DecidableEq, Repr

/-- The memory at the end of a call. -/
def Outcome.state : Outcome → Engine
  | .ok s => s
  | .aborted s => s

/-- Whether the call returned normally. -/
def Outcome.isOk : Outcome → Bool
  | .ok _ => true
  | .aborted _ => false

/-- One iteration of the commit loop on the entry `(id, o)`: the book after the
iteration, given the snapshots and option names so far. -/
def commitBook (futureInfo : SMap Int String) (id : Int) (o : OrderBook)
    (acc : SMap Int BidAndAsk × SMap Int String) :
    OrderBook × SMap Int BidAndAsk × SMap Int String :=
  let r1 : OrderBook × SMap Int BidAndAsk × SMap Int String :=
    if o.isReadyForAssembly = .Ready then
      let o1 := { o with isConsistent := true }
      let bidAsk : BidAndAsk := { bid := o1.GetBestBid, ask := o1.GetBestAsk }
      let snaps := SMap.insert id bidAsk (SMap.index acc.1 id { bid := 0, ask := 0 })
      -- the name is read from futureInfo, else through optionInfo[id]
      let opts := if (SMap.find futureInfo id).isSome then acc.2 else SMap.index acc.2 id ""
      (o1, snaps, opts)
    else (o, acc)
  if r1.1.isReadyForAssembly = .AlmostReady then
    ({ r1.1 with isReadyForAssembly := .Ready }, r1.2)
  else r1

/-- The loop `for (auto i = begin(orderBooks); i != end(orderBooks); ++i)` of the
commit case. -/
def commitLoop (futureInfo : SMap Int String) :
    SMap Int OrderBook → SMap Int BidAndAsk × SMap Int String →
    SMap Int OrderBook × SMap Int BidAndAsk × SMap Int String
  | [], acc => ([], acc)
  | (id, o) :: t, acc =>
    let r := commitBook futureInfo id o acc
    let rest := commitLoop futureInfo t r.2
    ((id, r.1) :: rest.1, rest.2)

/-- The case `CG_MSG_TN_COMMIT`. -/
def commit (s : Engine) : Engine :=
  let r := commitLoop s.futureInfo s.orderBooks (s.orderBookShapshots, s.optionInfo)
  { s with orderBooks := r.1, orderBookShapshots := r.2.1, optionInfo := r.2.2 }

/-- The test `status & flag` of a status word against one flag bit. -/
def hasFlag (status flag : Int) : Bool := decide (Int.land status flag ≠ 0)

/-- The branch `if (o.isReadyForAssembly == OrderBook::Ready)`: the book after
the switch on the action, or `none` when one of the two assertions of the
delete case fails. -/
def applyAction (o : OrderBook) (bid : Bool) (price : Real) (ol : orders_log) :
    Option OrderBook :=
  if ol.action = OrderActionAdd then
    some (o.ProcessOrder bid true price ol.amount ol.amount_rest)
  else if ol.action = OrderActionDelete then
    if ¬ (0 < ol.amount) then none
    else if ¬ (ol.amount_rest = 0) then none
    else some (o.ProcessOrder bid false price ol.amount ol.amount_rest)
  else if ol.action = OrderActionReduce then
    some (o.ProcessOrder bid false price ol.amount ol.amount_rest)
  else some o

/-- The case `CG_MSG_STREAM_DATA` for a record of the orders log. -/
def ordersLog (env : Env) (ol : orders_log) (s : Engine) : Outcome :=
  -- OrderBook& o = orderBooks[ol->isin_id];
  let books := SMap.index s.orderBooks ol.isin_id OrderBook.new
  let o := SMap.get books ol.isin_id OrderBook.new
  let bid := decide (ol.dir = 1)
  if ¬ hasFlag ol.status OrderStatusNonSystem then
    if o.isReadyForAssembly = .Ready then
      let price := bcdToDouble env ol.price
      match applyAction o bid price ol with
      | none => .aborted { s with orderBooks := books }
      | some o1 =>
        .ok { s with orderBooks :=
                SMap.insert ol.isin_id { o1 with isConsistent := false } books }
    else if hasFlag ol.status OrderStatusEndOfTransaction then
      .ok { s with orderBooks :=
              SMap.insert ol.isin_id { o with isReadyForAssembly := .AlmostReady } books }
    else .ok { s with orderBooks := books }
  else .ok { s with orderBooks := books }

/-- The function `fullOrderLogCallback`. -/
def fullOrderLogCallback (env : Env) (msg : cg_msg_t) (s : Engine) : Outcome :=
  match msg with
  | .CG_MSG_TN_COMMIT => .ok (commit s)
  | .CG_MSG_STREAM_DATA msg_index ol =>
    if msg_index = env.orders_log_index then ordersLog env ol s else .ok s
  | .other => .ok s

/-- A sequence of calls of the callback, one per message; nothing runs after an
abort. -/
def run (env : Env) : List cg_msg_t → Engine → Outcome
  | [], s => .ok s
  | m :: ms, s =>
    match fullOrderLogCallback env m s with
    | .ok s1 => run env ms s1
    | .aborted s1 => .aborted s1

/-! ## Derived notions used in the statements -/

/-- The ladder of one side: the bucket `ProcessOrder` selects for `bid`. -/
def OrderBook.side (o : OrderBook) (bid : Bool) : SMap Real Int :=
  if bid then o.bids else o.asks

/-- The volume `ProcessOrder` computes for the touched level before the test
against zero. -/
def OrderBook.newVolume (bucket : SMap Real Int) (increase : Bool) (price : Real)
    (volume : Int) (amountRest : Int) : Int :=
  if amountRest ≠ -1 then amountRest
  else if increase then SMap.get bucket price 0 + volume
  else SMap.get bucket price 0 - volume

/-- The value of the record's own book after `ordersLog`, as a function of its
value `o` before (the constructed book when the instrument is new). -/
def bookAfter (env : Env) (ol : orders_log) (o : OrderBook) : OrderBook :=
  if hasFlag ol.status OrderStatusNonSystem then o
  else if o.isReadyForAssembly = .Ready then
    match applyAction o (decide (ol.dir = 1)) (bcdToDouble env ol.price) ol with
    | none => o
    | some o1 => { o1 with isConsistent := false }
  else if hasFlag ol.status OrderStatusEndOfTransaction then
    { o with isReadyForAssembly := .AlmostReady }
  else o

/-- The value of a book after one commit, as a function of its value before. -/
def commitBookOf (o : OrderBook) : OrderBook :=
  if o.isReadyForAssembly = .Ready then { o with isConsistent := true }
  else if o.isReadyForAssembly = .AlmostReady then { o with isReadyForAssembly := .Ready }
  else o

/-- The snapshot entry of an instrument after one commit, given its book `b`
(if any) and its entry `old` before. -/
def snapshotAfter (b : Option OrderBook) (old : Option BidAndAsk) : Option BidAndAsk :=
  match b with
  | some o =>
    if o.isReadyForAssembly = .Ready then some { bid := o.GetBestBid, ask := o.GetBestAsk }
    else old
  | none => old

/-- The book of an instrument, if it has one. -/
def Engine.book (s : Engine) (id : Int) : Option OrderBook := SMap.find s.orderBooks id

/-- The snapshot entry of an instrument, if it has one. -/
def Engine.snapshot (s : Engine) (id : Int) : Option BidAndAsk :=
  SMap.find s.orderBookShapshots id

/-! ## Example data -/

/-- An environment: the orders log has index `0`, memory past the table reads `1`. -/
def env0 : Env := { orders_log_index := 0, beyondTable := fun _ => 1 }

/-- A book with two levels on each side. -/
def exBook : OrderBook :=
  { bids := [(98, 4), (99, 5)], asks := [(101, 2), (102, 7)], isConsistent := false,
    isReadyForAssembly := .Ready }

/-- An engine whose only book, for instrument 100, is empty and `AlmostReady`. -/
def exEngineAlmost : Engine :=
  { futureInfo := [], optionInfo := [],
    orderBooks := [(100, { bids := [], asks := [], isConsistent := false,
                           isReadyForAssembly := .AlmostReady })],
    orderBookShapshots := [] }

/-- An engine whose only book, for instrument 100, is empty and `NotReady`. -/
def exEngineNotReady : Engine :=
  { futureInfo := [], optionInfo := [],
    orderBooks := [(100, { bids := [], asks := [], isConsistent := false,
                           isReadyForAssembly := .NotReady })],
    orderBookShapshots := [] }

/-- The record `Add(bid, price 100, amount 5)` for instrument 100 with the given status,
the amount remaining absent. -/
def exAdd (status : Int) : orders_log :=
  { isin_id := 100, dir := 1, action := OrderActionAdd, status := status,
    price := { intpart := 10000, scale := 2 }, amount := 5, amount_rest := -1 }

/-- An engine with no book at all. -/
def emptyEngine : Engine :=
  { futureInfo := [], optionInfo := [], orderBooks := [], orderBookShapshots := [] }

/-- A non-system record (status `0x04`) for instrument 7. -/
def exNonSystem : orders_log :=
  { isin_id := 7, dir := 1, action := OrderActionAdd, status := 0x04,
    price := { intpart := 100, scale := 0 }, amount := 5, amount_rest := -1 }

/-- An engine whose only book, for instrument 100, is `Ready` with bids `{100 -> 10}`. -/
def exEngineTen : Engine :=
  { futureInfo := [], optionInfo := [],
    orderBooks := [(100, { bids := [(100, 10)], asks := [], isConsistent := false,
                           isReadyForAssembly := .Ready })],
    orderBookShapshots := [] }

/-- A system `Delete(bid, price 100, amount, amount_rest)` for instrument 100. -/
def exDelete (amount amount_rest : Int) : orders_log :=
  { isin_id := 100, dir := 1, action := OrderActionDelete, status := 0,
    price := { intpart := 100, scale := 0 }, amount := amount, amount_rest := amount_rest }

/-- An engine whose only book, for instrument 100, is the constructed one. -/
def exEngine : Engine :=
  { futureInfo := [], optionInfo := [], orderBooks := [(100, OrderBook.new)],
    orderBookShapshots := [] }

/-- A system `Reduce(bid, price 100, amount 5)` for instrument 100, the amount remaining
absent. -/
def exReduce : orders_log :=
  { isin_id := 100, dir := 1, action := OrderActionReduce, status := 0,
    price := { intpart := 100, scale := 0 }, amount := 5, amount_rest := -1 }

/-- A book with bids `{100 -> 3}` and asks `{101 -> 2}`. -/
def exBookThree : OrderBook :=
  { bids := [(100, 3)], asks := [(101, 2)], isConsistent := false,
    isReadyForAssembly := .Ready }

/-- A book whose best bid is the price `0`: bids `{0 -> 5}`, asks `{10 -> 3}`. -/
def exBookZeroBid : OrderBook :=
  { bids := [(0, 5)], asks := [(10, 3)], isConsistent := false, isReadyForAssembly := .Ready }

/-- A system `Add(bid, amount 5)` for instrument 100 whose price has integer part `100`
and the given scale, the amount remaining absent. -/
def exAddScale (scale : Int) : orders_log :=
  { isin_id := 100, dir := 1, action := OrderActionAdd, status := 0,
    price := { intpart := 100, scale := scale }, amount := 5, amount_rest := -1 }

/-- No stored level has volume `0`. -/
def SMap.NoZero {K : Type} (m : SMap K Int) : Prop := ∀ kv ∈ m, kv.2 ≠ 0

/-- The arguments of one call of `ProcessOrder`. -/
structure ProcessOrderCall where
  bid : Bool
  increase : Bool
  price : Real
  volume : Int
  amountRest : Int
  deriving DecidableEq, Repr

/-- A sequence of calls of `ProcessOrder` on one book, in order. -/
def OrderBook.applyCalls (o : OrderBook) : List ProcessOrderCall → OrderBook
  | [] => o
  | c :: cs =>
    (o.ProcessOrder c.bid c.increase c.price c.volume c.amountRest).applyCalls cs

/-- What `ordersLog` stores into the record's own book `o`: the new value of the book, or
`none` when the call writes nothing into it. -/
def recordWrite (env : Env) (ol : orders_log) (o : OrderBook) : Option OrderBook :=
  if hasFlag ol.status OrderStatusNonSystem then none
  else if o.isReadyForAssembly = .Ready then
    match applyAction o (decide (ol.dir = 1)) (bcdToDouble env ol.price) ol with
    | none => none
    | some o1 => some { o1 with isConsistent := false }
  else if hasFlag ol.status OrderStatusEndOfTransaction then
    some { o with isReadyForAssembly := .AlmostReady }
  else none

/-- Whether `ordersLog` aborts on a record whose own book is `o`. -/
def recordAborts (env : Env) (ol : orders_log) (o : OrderBook) : Bool :=
  !hasFlag ol.status OrderStatusNonSystem && decide (o.isReadyForAssembly = .Ready) &&
    (applyAction o (decide (ol.dir = 1)) (bcdToDouble env ol.price) ol).isNone

/-- The map of books after `orderBooks[k]` and the optional store `w` into that book. -/
def writeBook (k : Int) (w : Option OrderBook) (books : SMap Int OrderBook) :
    SMap Int OrderBook :=
  match w with
  | none => SMap.index books k OrderBook.new
  | some o1 => SMap.insert k o1 (SMap.index books k OrderBook.new)

/-- An engine with a `Ready` book for instrument 100 and one for instrument 200. -/
def exEngineTwo : Engine :=
  { futureInfo := [], optionInfo := [],
    orderBooks := [(100, OrderBook.new), (200, OrderBook.new)], orderBookShapshots := [] }

/-- A system `Add(ask, price 101, amount 2)` for instrument 200, the amount remaining
absent. -/
def exAddOther : orders_log :=
  { isin_id := 200, dir := 2, action := OrderActionAdd, status := 0,
    price := { intpart := 101, scale := 0 }, amount := 2, amount_rest := -1 }

/-! ## Lemmas on ordered maps -/

namespace SMap

variable {K V : Type}

theorem find_insert_self [LinearOrder K] (k : K) (v : V) (m : SMap K V) :
    find (insert k v m) k = some v := by
  induction m with
  | nil => simp [insert, find]
  | cons hd t ih =>
    obtain ⟨k', v'⟩ := hd
    by_cases h1 : k < k'
    · simp [insert, find, h1]
    · by_cases h2 : k = k'
      · simp [insert, find, h1, h2]
      · have h3 : ¬ k' = k := fun h => h2 h.symm
        simp [insert, find, h1, h2, h3, ih]

theorem find_insert_ne [LinearOrder K] {k j : K} (h : j ≠ k) (v : V) (m : SMap K V) :
    find (insert k v m) j = find m j := by
  have hkj : ¬ k = j := fun e => h e.symm
  induction m with
  | nil => simp [insert, find, hkj]
  | cons hd t ih =>
    obtain ⟨k', v'⟩ := hd
    by_cases h1 : k < k'
    · simp [insert, find, h1, hkj]
    · by_cases h2 : k = k'
      · subst h2
        simp [insert, find, hkj]
      · simp [insert, find, h1, h2, ih]

theorem find_erase_self [DecidableEq K] (k : K) (m : SMap K V) :
    find (erase k m) k = none := by
  induction m with
  | nil => simp [erase, find]
  | cons hd t ih =>
    obtain ⟨k', v'⟩ := hd
    by_cases h1 : k' = k
    · simp [erase, h1, ih]
    · simp [erase, find, h1, ih]

theorem find_erase_ne [DecidableEq K] {k j : K} (h : j ≠ k) (m : SMap K V) :
    find (erase k m) j = find m j := by
  induction m with
  | nil => simp [erase, find]
  | cons hd t ih =>
    obtain ⟨k', v'⟩ := hd
    by_cases h1 : k' = k
    · subst h1
      have h2 : ¬ k' = j := fun e => h e.symm
      simp [erase, find, h2, ih]
    · by_cases h3 : k' = j
      · subst h3
        simp [erase, find, h1]
      · simp [erase, find, h1, h3, ih]

theorem find_index_self [LinearOrder K] (m : SMap K V) (k : K) (d : V) :
    find (index m k d) k = some (get m k d) := by
  unfold index get
  cases h : find m k with
  | none => simp [find_insert_self]
  | some v => simp [h]

theorem find_index_ne [LinearOrder K] {k j : K} (h : j ≠ k) (m : SMap K V) (d : V) :
    find (index m k d) j = find m j := by
  unfold index
  cases hf : find m k with
  | none => simp [find_insert_ne h]
  | some v => simp

theorem index_of_find [LinearOrder K] {m : SMap K V} {k : K} {v : V} (d : V)
    (h : find m k = some v) : index m k d = m := by
  simp [index, h]

theorem get_of_find [DecidableEq K] {m : SMap K V} {k : K} {v : V} (d : V)
    (h : find m k = some v) : get m k d = v := by
  simp [get, h]

theorem find_eq_none_of_not_mem [DecidableEq K] {m : SMap K V} {k : K}
    (h : k ∉ keys m) : find m k = none := by
  induction m with
  | nil => simp [find]
  | cons hd t ih =>
    obtain ⟨k', v'⟩ := hd
    simp only [keys, List.map_cons, List.mem_cons, not_or] at h
    have h1 : ¬ k' = k := fun e => h.1 e.symm
    simp only [find, h1, if_false]
    exact ih h.2

theorem mem_keys_of_find [DecidableEq K] {m : SMap K V} {k : K} {v : V}
    (h : find m k = some v) : k ∈ keys m := by
  by_contra hk
  rw [find_eq_none_of_not_mem hk] at h
  cases h

theorem find_tail_none [LinearOrder K] {k : K} {v : V} {t : SMap K V}
    (h : WF ((k, v) :: t)) : find t k = none := by
  apply find_eq_none_of_not_mem
  intro hk
  have h2 := (List.pairwise_cons.1 h).1 k hk
  exact lt_irrefl k h2

theorem WF_tail [LinearOrder K] {hd : K × V} {t : SMap K V} (h : WF (hd :: t)) : WF t :=
  (List.pairwise_cons.1 h).2

end SMap

/-! ## Lemmas on `ProcessOrder` -/

namespace OrderBook

theorem processBucket_eq (bucket : SMap Real Int) (increase : Bool) (price : Real)
    (volume amountRest : Int) :
    processBucket bucket increase price volume amountRest =
      if newVolume bucket increase price volume amountRest = 0 then
        SMap.erase price
          (SMap.insert price (newVolume bucket increase price volume amountRest)
            (SMap.index bucket price 0))
      else
        SMap.insert price (newVolume bucket increase price volume amountRest)
          (SMap.index bucket price 0) := by
  have key : ∀ nv : Int,
      (if SMap.get (SMap.insert price nv (SMap.index bucket price 0)) price 0 = 0 then
        SMap.erase price
          (SMap.index (SMap.insert price nv (SMap.index bucket price 0)) price 0)
       else SMap.index (SMap.insert price nv (SMap.index bucket price 0)) price 0) =
      if nv = 0 then SMap.erase price (SMap.insert price nv (SMap.index bucket price 0))
      else SMap.insert price nv (SMap.index bucket price 0) := by
    intro nv
    have hf := SMap.find_insert_self price nv (SMap.index bucket price 0)
    rw [SMap.index_of_find 0 hf, SMap.get_of_find 0 hf]
  unfold processBucket newVolume
  by_cases h1 : amountRest = -1
  · cases increase
    · simp only [ne_eq, h1, not_true_eq_false, if_false, Bool.false_eq_true]
      exact key _
    · simp only [ne_eq, h1, not_true_eq_false, if_false, if_true]
      exact key _
  · simp only [ne_eq, h1, not_false_eq_true, if_true]
    exact key amountRest

theorem find_processBucket_self (bucket : SMap Real Int) (increase : Bool) (price : Real)
    (volume amountRest : Int) :
    SMap.find (processBucket bucket increase price volume amountRest) price =
      if newVolume bucket increase price volume amountRest = 0 then none
      else some (newVolume bucket increase price volume amountRest) := by
  rw [processBucket_eq]
  split
  · exact SMap.find_erase_self _ _
  · exact SMap.find_insert_self _ _ _

theorem find_processBucket_ne (bucket : SMap Real Int) (increase : Bool) {price q : Real}
    (h : q ≠ price) (volume amountRest : Int) :
    SMap.find (processBucket bucket increase price volume amountRest) q =
      SMap.find bucket q := by
  rw [processBucket_eq]
  split
  · rw [SMap.find_erase_ne h, SMap.find_insert_ne h, SMap.find_index_ne h]
  · rw [SMap.find_insert_ne h, SMap.find_index_ne h]

end OrderBook

/-! ## Lemmas on the log-record case -/

theorem ordersLog_find_self (env : Env) (ol : orders_log) (s : Engine) :
    SMap.find (ordersLog env ol s).state.orderBooks ol.isin_id =
      some (bookAfter env ol (SMap.get s.orderBooks ol.isin_id OrderBook.new)) := by
  have hidx := SMap.find_index_self s.orderBooks ol.isin_id OrderBook.new
  have hget : SMap.get (SMap.index s.orderBooks ol.isin_id OrderBook.new) ol.isin_id
      OrderBook.new = SMap.get s.orderBooks ol.isin_id OrderBook.new :=
    SMap.get_of_find _ hidx
  unfold ordersLog bookAfter
  simp only [hget]
  by_cases h1 : hasFlag ol.status OrderStatusNonSystem = true
  · simp [h1, Outcome.state, hidx]
  · by_cases h2 : (SMap.get s.orderBooks ol.isin_id OrderBook.new).isReadyForAssembly = .Ready
    · simp only [h1, h2, not_false_eq_true, if_true, if_false]
      cases applyAction (SMap.get s.orderBooks ol.isin_id OrderBook.new) (decide (ol.dir = 1))
          (bcdToDouble env ol.price) ol with
      | none => simp [Outcome.state, hidx]
      | some o1 => simp [Outcome.state, SMap.find_insert_self]
    · by_cases h3 : hasFlag ol.status OrderStatusEndOfTransaction = true
      · simp [h1, h2, h3, Outcome.state, SMap.find_insert_self]
      · simp [h1, h2, h3, Outcome.state, hidx]

theorem ordersLog_find_ne (env : Env) (ol : orders_log) (s : Engine) {j : Int}
    (h : j ≠ ol.isin_id) :
    SMap.find (ordersLog env ol s).state.orderBooks j = SMap.find s.orderBooks j := by
  have hidx := SMap.find_index_ne h s.orderBooks OrderBook.new
  unfold ordersLog
  by_cases h1 : hasFlag ol.status OrderStatusNonSystem = true
  · simp [h1, Outcome.state, hidx]
  · by_cases h2 : (SMap.get (SMap.index s.orderBooks ol.isin_id OrderBook.new) ol.isin_id
        OrderBook.new).isReadyForAssembly = .Ready
    · simp only [h1, h2, not_false_eq_true, if_true, if_false]
      cases applyAction (SMap.get (SMap.index s.orderBooks ol.isin_id OrderBook.new)
          ol.isin_id OrderBook.new) (decide (ol.dir = 1)) (bcdToDouble env ol.price) ol with
      | none => simp [Outcome.state, hidx]
      | some o1 => simp [Outcome.state, SMap.find_insert_ne h, hidx]
    · by_cases h3 : hasFlag ol.status OrderStatusEndOfTransaction = true
      · simp [h1, h2, h3, Outcome.state, SMap.find_insert_ne h, hidx]
      · simp [h1, h2, h3, Outcome.state, hidx]

theorem ordersLog_other_maps (env : Env) (ol : orders_log) (s : Engine) :
    (ordersLog env ol s).state.futureInfo = s.futureInfo ∧
    (ordersLog env ol s).state.optionInfo = s.optionInfo ∧
    (ordersLog env ol s).state.orderBookShapshots = s.orderBookShapshots := by
  unfold ordersLog
  simp only []
  split
  · split
    · split <;> simp [Outcome.state]
    · split <;> simp [Outcome.state]
  · simp [Outcome.state]

/-! ## Lemmas on the commit case -/

theorem commitBook_fst (fi : SMap Int String) (id : Int) (o : OrderBook)
    (acc : SMap Int BidAndAsk × SMap Int String) :
    (commitBook fi id o acc).1 = commitBookOf o := by
  unfold commitBook commitBookOf
  cases h : o.isReadyForAssembly <;> simp [h]

theorem commitBook_snaps_self (fi : SMap Int String) (id : Int) (o : OrderBook)
    (acc : SMap Int BidAndAsk × SMap Int String) :
    SMap.find (commitBook fi id o acc).2.1 id = snapshotAfter (some o) (SMap.find acc.1 id) := by
  unfold commitBook snapshotAfter
  cases h : o.isReadyForAssembly <;>
    simp [h, SMap.find_insert_self, OrderBook.GetBestBid, OrderBook.GetBestAsk]

theorem commitBook_snaps_ne (fi : SMap Int String) {id j : Int} (hj : j ≠ id) (o : OrderBook)
    (acc : SMap Int BidAndAsk × SMap Int String) :
    SMap.find (commitBook fi id o acc).2.1 j = SMap.find acc.1 j := by
  unfold commitBook
  cases h : o.isReadyForAssembly <;>
    simp [h, SMap.find_insert_ne hj, SMap.find_index_ne hj]

theorem find_commitLoop_books (fi : SMap Int String) (m : SMap Int OrderBook)
    (acc : SMap Int BidAndAsk × SMap Int String) (id : Int) :
    SMap.find (commitLoop fi m acc).1 id = (SMap.find m id).map commitBookOf := by
  induction m generalizing acc with
  | nil => simp [commitLoop, SMap.find]
  | cons hd t ih =>
    obtain ⟨k, o⟩ := hd
    by_cases hk : k = id
    · simp [commitLoop, SMap.find, hk, commitBook_fst]
    · simp [commitLoop, SMap.find, hk, ih]

theorem keys_commitLoop (fi : SMap Int String) (m : SMap Int OrderBook)
    (acc : SMap Int BidAndAsk × SMap Int String) :
    SMap.keys (commitLoop fi m acc).1 = SMap.keys m := by
  induction m generalizing acc with
  | nil => simp [commitLoop, SMap.keys]
  | cons hd t ih =>
    obtain ⟨k, o⟩ := hd
    have := ih (commitBook fi k o acc).2
    simp only [SMap.keys] at this
    simp [commitLoop, SMap.keys, this]

theorem find_commitLoop_snaps (fi : SMap Int String) (m : SMap Int OrderBook)
    (acc : SMap Int BidAndAsk × SMap Int String) (id : Int) (hwf : SMap.WF m) :
    SMap.find (commitLoop fi m acc).2.1 id =
      snapshotAfter (SMap.find m id) (SMap.find acc.1 id) := by
  induction m generalizing acc with
  | nil => simp [commitLoop, SMap.find, snapshotAfter]
  | cons hd t ih =>
    obtain ⟨k, o⟩ := hd
    have hrest := ih (commitBook fi k o acc).2 (SMap.WF_tail hwf)
    simp only [commitLoop]
    rw [hrest]
    by_cases hk : k = id
    · subst hk
      rw [SMap.find_tail_none hwf, commitBook_snaps_self]
      simp [SMap.find, snapshotAfter]
    · have hne : id ≠ k := fun e => hk e.symm
      rw [commitBook_snaps_ne fi hne]
      simp [SMap.find, hk]

theorem WF_commit (s : Engine) (hwf : SMap.WF s.orderBooks) :
    SMap.WF (commit s).orderBooks := by
  unfold SMap.WF commit
  simp only []
  rw [keys_commitLoop]
  exact hwf

theorem find_commit_books (s : Engine) (id : Int) :
    SMap.find (commit s).orderBooks id = (SMap.find s.orderBooks id).map commitBookOf := by
  unfold commit
  exact find_commitLoop_books _ _ _ _

theorem find_commit_snaps (s : Engine) (id : Int) (hwf : SMap.WF s.orderBooks) :
    SMap.find (commit s).orderBookShapshots id =
      snapshotAfter (SMap.find s.orderBooks id) (SMap.find s.orderBookShapshots id) := by
  unfold commit
  exact find_commitLoop_snaps _ _ _ _ hwf

/-! ## Lemmas on the best-of-side queries -/

namespace SMap
variable {K V : Type}

theorem getLast_max [LinearOrder K] {m : SMap K V} {kv : K × V} (hwf : WF m)
    (h : m.getLast? = some kv) : kv.1 ∈ keys m ∧ ∀ p ∈ keys m, p ≤ kv.1 := by
  induction m with
  | nil => simp at h
  | cons hd t ih =>
    cases t with
    | nil =>
      simp only [List.getLast?_singleton, Option.some.injEq] at h
      subst h
      simp [keys]
    | cons hd2 t2 =>
      rw [List.getLast?_cons_cons] at h
      obtain ⟨hmem, hmax⟩ := ih (WF_tail hwf) h
      have hlt : hd.1 < kv.1 := (List.pairwise_cons.1 hwf).1 kv.1 hmem
      refine ⟨?_, ?_⟩
      · simp only [keys, List.map_cons, List.mem_cons] at hmem ⊢
        exact Or.inr hmem
      · intro p hp
        simp only [keys, List.map_cons, List.mem_cons] at hp hmax
        rcases hp with hp | hp
        · rw [hp]; exact le_of_lt hlt
        · exact hmax p hp

theorem head_min [LinearOrder K] {m : SMap K V} {kv : K × V} (hwf : WF m)
    (h : m.head? = some kv) : kv.1 ∈ keys m ∧ ∀ p ∈ keys m, kv.1 ≤ p := by
  cases m with
  | nil => simp at h
  | cons hd t =>
    simp only [List.head?_cons, Option.some.injEq] at h
    subst h
    refine ⟨by simp [keys], ?_⟩
    intro p hp
    simp only [keys, List.map_cons, List.mem_cons] at hp
    rcases hp with hp | hp
    · rw [hp]
    · exact le_of_lt ((List.pairwise_cons.1 hwf).1 p hp)

end SMap

/-! ## Lemmas on readiness -/

theorem ProcessOrder_ready (o : OrderBook) (bid increase : Bool) (price : Real)
    (volume amountRest : Int) :
    (o.ProcessOrder bid increase price volume amountRest).isReadyForAssembly =
      o.isReadyForAssembly := by
  unfold OrderBook.ProcessOrder
  split <;> rfl

theorem ProcessOrder_consistent (o : OrderBook) (bid increase : Bool) (price : Real)
    (volume amountRest : Int) :
    (o.ProcessOrder bid increase price volume amountRest).isConsistent = o.isConsistent := by
  unfold OrderBook.ProcessOrder
  split <;> rfl

theorem applyAction_ready {o o1 : OrderBook} {bid : Bool} {price : Real} {ol : orders_log}
    (h : applyAction o bid price ol = some o1) :
    o1.isReadyForAssembly = o.isReadyForAssembly := by
  unfold applyAction at h
  split at h
  · cases h; exact ProcessOrder_ready _ _ _ _ _ _
  · split at h
    · split at h
      · cases h
      · split at h
        · cases h
        · cases h; exact ProcessOrder_ready _ _ _ _ _ _
    · split at h
      · cases h; exact ProcessOrder_ready _ _ _ _ _ _
      · cases h; rfl

theorem bookAfter_ready (env : Env) (ol : orders_log) (o : OrderBook) :
    (o.isReadyForAssembly = .Ready → (bookAfter env ol o).isReadyForAssembly = .Ready) ∧
    (o.isReadyForAssembly ≠ .Ready →
      (bookAfter env ol o).isReadyForAssembly = o.isReadyForAssembly ∨
      (bookAfter env ol o).isReadyForAssembly = .AlmostReady) := by
  unfold bookAfter
  constructor
  · intro hr
    by_cases h1 : hasFlag ol.status OrderStatusNonSystem = true
    · simp only [h1, if_true]
      exact hr
    · simp only [h1, hr, if_true, if_false]
      cases ha : applyAction o (decide (ol.dir = 1)) (bcdToDouble env ol.price) ol with
      | none => exact hr
      | some o1 => simp [applyAction_ready ha, hr]
  · intro hr
    by_cases h1 : hasFlag ol.status OrderStatusNonSystem = true
    · simp [h1]
    · simp only [h1, hr, if_false]
      by_cases h3 : hasFlag ol.status OrderStatusEndOfTransaction = true
      · simp only [h3, if_true]
        exact Or.inr rfl
      · simp only [h3, if_false]
        exact Or.inl rfl

theorem bookAfter_rank (env : Env) (ol : orders_log) (o : OrderBook) :
    o.isReadyForAssembly.rank ≤ (bookAfter env ol o).isReadyForAssembly.rank ∧
    (o.isReadyForAssembly = .Ready → (bookAfter env ol o).isReadyForAssembly = .Ready) ∧
    ¬ (o.isReadyForAssembly = .NotReady ∧ (bookAfter env ol o).isReadyForAssembly = .Ready) := by
  obtain ⟨h1, h2⟩ := bookAfter_ready env ol o
  by_cases hr : o.isReadyForAssembly = .Ready
  · have h := h1 hr
    refine ⟨by rw [h, hr], fun _ => h, ?_⟩
    rintro ⟨hn, _⟩
    rw [hr] at hn
    cases hn
  · refine ⟨?_, fun h => absurd h hr, ?_⟩
    · rcases h2 hr with h | h
      · rw [h]
      · rw [h]
        cases ho : o.isReadyForAssembly with
        | NotReady => decide
        | AlmostReady => decide
        | Ready => exact absurd ho hr
    · rintro ⟨hn, hR⟩
      rcases h2 hr with h | h
      · rw [h, hn] at hR
        cases hR
      · rw [h] at hR
        cases hR

theorem commitBookOf_rank (o : OrderBook) :
    o.isReadyForAssembly.rank ≤ (commitBookOf o).isReadyForAssembly.rank ∧
    (o.isReadyForAssembly = .Ready → (commitBookOf o).isReadyForAssembly = .Ready) ∧
    ¬ (o.isReadyForAssembly = .NotReady ∧ (commitBookOf o).isReadyForAssembly = .Ready) := by
  unfold commitBookOf
  cases h : o.isReadyForAssembly <;> simp [h, Readiness.rank]

/-! ## Well-formedness is preserved -/

namespace SMap
variable {K V : Type}

theorem mem_keys_insert [LinearOrder K] {k x : K} {v : V} {m : SMap K V}
    (h : x ∈ keys (insert k v m)) : x = k ∨ x ∈ keys m := by
  induction m with
  | nil =>
    simp only [insert, keys, List.map_cons, List.map_nil, List.mem_singleton] at h
    exact Or.inl h
  | cons hd t ih =>
    obtain ⟨k', v'⟩ := hd
    by_cases h1 : k < k'
    · simp only [insert, h1, if_true, keys, List.map_cons, List.mem_cons] at h ⊢
      exact h
    · by_cases h2 : k = k'
      · subst h2
        simp only [insert, lt_irrefl, if_true, if_false, keys, List.map_cons,
          List.mem_cons] at h ⊢
        rcases h with h | h
        · exact Or.inl h
        · exact Or.inr (Or.inr h)
      · simp only [insert, h1, h2, if_false, keys, List.map_cons, List.mem_cons] at h ⊢
        rcases h with h | h
        · exact Or.inr (Or.inl h)
        · rcases ih h with h | h
          · exact Or.inl h
          · exact Or.inr (Or.inr h)

theorem WF_insert [LinearOrder K] (k : K) (v : V) {m : SMap K V} (hwf : WF m) :
    WF (insert k v m) := by
  induction m with
  | nil => simp [insert, WF, keys]
  | cons hd t ih =>
    obtain ⟨k', v'⟩ := hd
    have htail : ∀ x ∈ keys t, k' < x := (List.pairwise_cons.1 hwf).1
    have hwt : WF t := WF_tail hwf
    by_cases h1 : k < k'
    · simp only [insert, h1, if_true]
      refine List.pairwise_cons.2 ⟨?_, hwf⟩
      intro x hx
      simp only [List.map_cons, List.mem_cons] at hx
      rcases hx with hx | hx
      · rw [hx]; exact h1
      · exact lt_trans h1 (htail x hx)
    · by_cases h2 : k = k'
      · subst h2
        simp only [insert, lt_irrefl, if_true, if_false]
        exact List.pairwise_cons.2 ⟨htail, hwt⟩
      · simp only [insert, h1, h2, if_false]
        have hlt : k' < k := lt_of_le_of_ne (not_lt.1 h1) (fun e => h2 e.symm)
        refine List.pairwise_cons.2 ⟨?_, ih hwt⟩
        intro x hx
        rcases mem_keys_insert hx with hx | hx
        · rw [hx]; exact hlt
        · exact htail x hx

theorem WF_index [LinearOrder K] (k : K) (d : V) {m : SMap K V} (hwf : WF m) :
    WF (index m k d) := by
  unfold index
  split
  · exact hwf
  · exact WF_insert k d hwf

end SMap

theorem WF_ordersLog (env : Env) (ol : orders_log) (s : Engine)
    (hwf : SMap.WF s.orderBooks) : SMap.WF (ordersLog env ol s).state.orderBooks := by
  have hidx := SMap.WF_index ol.isin_id OrderBook.new hwf
  unfold ordersLog
  simp only []
  split
  · split
    · split
      · exact hidx
      · exact SMap.WF_insert _ _ hidx
    · split
      · exact SMap.WF_insert _ _ hidx
      · exact hidx
  · exact hidx

theorem Outcome.eq_ok_state {out : Outcome} (h : out.isOk = true) : out = .ok out.state := by
  cases out with
  | ok s => rfl
  | aborted s => cases h

theorem applyAction_isSome_of_not_delete (o : OrderBook) (bid : Bool) (price : Real)
    (ol : orders_log) (h : ol.action ≠ OrderActionDelete) :
    (applyAction o bid price ol).isSome = true := by
  unfold applyAction
  by_cases h1 : ol.action = OrderActionAdd
  · simp only [h1, if_true, Option.isSome_some]
  · by_cases h2 : ol.action = OrderActionReduce
    · rw [if_neg h1, if_neg h, if_pos h2]
      rfl
    · rw [if_neg h1, if_neg h, if_neg h2]
      rfl

theorem ordersLog_isOk_of_not_delete (env : Env) (ol : orders_log) (s : Engine)
    (h : ol.action ≠ OrderActionDelete) : (ordersLog env ol s).isOk = true := by
  unfold ordersLog
  simp only []
  split
  · split
    · have := applyAction_isSome_of_not_delete
        (SMap.get (SMap.index s.orderBooks ol.isin_id OrderBook.new) ol.isin_id OrderBook.new)
        (decide (ol.dir = 1)) (bcdToDouble env ol.price) ol h
      split
      · rename_i heq
        rw [heq] at this
        cases this
      · rfl
    · split <;> rfl
  · rfl

theorem callback_ordersLog (env : Env) (ol : orders_log) (s : Engine) :
    fullOrderLogCallback env (.CG_MSG_STREAM_DATA env.orders_log_index ol) s =
      ordersLog env ol s := by
  simp [fullOrderLogCallback]

theorem add_record_ok (env : Env) (ol : orders_log) (s : Engine)
    (h : ol.action = OrderActionAdd) :
    fullOrderLogCallback env (.CG_MSG_STREAM_DATA env.orders_log_index ol) s =
      .ok (ordersLog env ol s).state := by
  rw [callback_ordersLog]
  apply Outcome.eq_ok_state
  apply ordersLog_isOk_of_not_delete
  rw [h]
  decide

theorem book_after_record (env : Env) (ol : orders_log) (s : Engine) (o : OrderBook)
    (h : s.book ol.isin_id = some o) :
    (ordersLog env ol s).state.book ol.isin_id = some (bookAfter env ol o) := by
  unfold Engine.book at *
  rw [ordersLog_find_self, SMap.get_of_find _ h]

theorem exAdd_price (status : Int) : bcdToDouble env0 (exAdd status).price = 100 := by
  simp [bcdToDouble, exAdd, readPowersOf10, size_t_of, powersOf10]
  norm_num

theorem commitBookOf_ladder (o : OrderBook) :
    (commitBookOf o).bids = o.bids ∧ (commitBookOf o).asks = o.asks := by
  unfold commitBookOf
  cases h : o.isReadyForAssembly <;> simp

/-! ## Lemmas on the entries of a ladder -/

namespace SMap

variable {K V : Type}

theorem mem_insert [LinearOrder K] {k : K} {v : V} {m : SMap K V} {x : K × V}
    (h : x ∈ insert k v m) : x = (k, v) ∨ x ∈ m := by
  induction m with
  | nil =>
    simp only [insert, List.mem_singleton] at h
    exact Or.inl h
  | cons hd t ih =>
    obtain ⟨k', v'⟩ := hd
    by_cases h1 : k < k'
    · simp only [insert, h1, if_true, List.mem_cons] at h ⊢
      exact h
    · by_cases h2 : k = k'
      · subst h2
        simp only [insert, lt_irrefl, if_true, if_false, List.mem_cons] at h ⊢
        rcases h with h | h
        · exact Or.inl h
        · exact Or.inr (Or.inr h)
      · simp only [insert, h1, h2, if_false, List.mem_cons] at h ⊢
        rcases h with h | h
        · exact Or.inr (Or.inl h)
        · rcases ih h with h | h
          · exact Or.inl h
          · exact Or.inr (Or.inr h)

theorem mem_erase [DecidableEq K] {k : K} {m : SMap K V} {x : K × V}
    (h : x ∈ erase k m) : x ∈ m ∧ x.1 ≠ k := by
  induction m with
  | nil => simp [erase] at h
  | cons hd t ih =>
    obtain ⟨k', v'⟩ := hd
    by_cases h1 : k' = k
    · simp only [erase, h1, if_true] at h
      exact ⟨List.mem_cons_of_mem _ (ih h).1, (ih h).2⟩
    · simp only [erase, h1, if_false, List.mem_cons] at h
      rcases h with h | h
      · subst h
        exact ⟨List.mem_cons_self _ _, h1⟩
      · exact ⟨List.mem_cons_of_mem _ (ih h).1, (ih h).2⟩

theorem insert_insert [LinearOrder K] (k : K) (v v' : V) (m : SMap K V) :
    insert k v' (insert k v m) = insert k v' m := by
  induction m with
  | nil => simp [insert]
  | cons hd t ih =>
    obtain ⟨k', v'⟩ := hd
    by_cases h1 : k < k'
    · simp [insert, h1]
    · by_cases h2 : k = k'
      · subst h2
        simp [insert]
      · simp [insert, h1, h2, ih]

theorem erase_insert [LinearOrder K] (k : K) (v : V) (m : SMap K V) :
    erase k (insert k v m) = erase k m := by
  induction m with
  | nil => simp [insert, erase]
  | cons hd t ih =>
    obtain ⟨k', v'⟩ := hd
    by_cases h1 : k < k'
    · simp [insert, h1, erase]
    · by_cases h2 : k = k'
      · subst h2
        simp [insert, erase]
      · have h3 : ¬ k' = k := fun e => h2 e.symm
        simp [insert, h1, h2, erase, h3, ih]

theorem insert_index [LinearOrder K] (k : K) (v d : V) (m : SMap K V) :
    insert k v (index m k d) = insert k v m := by
  unfold index
  cases find m k with
  | none => exact insert_insert k d v m
  | some w => rfl

theorem NoZero_insert [LinearOrder K] {k : K} {v : Int} {m : SMap K Int}
    (hv : v ≠ 0) (h : NoZero m) : NoZero (insert k v m) := by
  intro x hx
  rcases mem_insert hx with hx | hx
  · rw [hx]
    exact hv
  · exact h x hx

theorem NoZero_erase [DecidableEq K] {k : K} {m : SMap K Int} (h : NoZero m) :
    NoZero (erase k m) := fun x hx => h x (mem_erase hx).1

end SMap

namespace OrderBook

theorem processBucket_simp (bucket : SMap Real Int) (increase : Bool) (price : Real)
    (volume amountRest : Int) :
    processBucket bucket increase price volume amountRest =
      if newVolume bucket increase price volume amountRest = 0 then SMap.erase price bucket
      else SMap.insert price (newVolume bucket increase price volume amountRest) bucket := by
  rw [processBucket_eq, SMap.insert_index, SMap.erase_insert]

theorem NoZero_processBucket {bucket : SMap Real Int} (increase : Bool) (price : Real)
    (volume amountRest : Int) (h : SMap.NoZero bucket) :
    SMap.NoZero (processBucket bucket increase price volume amountRest) := by
  rw [processBucket_simp]
  split
  · exact SMap.NoZero_erase h
  · rename_i hnv
    exact SMap.NoZero_insert hnv h

theorem NoZero_ProcessOrder {o : OrderBook} (bid increase : Bool) (price : Real)
    (volume amountRest : Int) (hb : SMap.NoZero o.bids) (ha : SMap.NoZero o.asks) :
    SMap.NoZero (o.ProcessOrder bid increase price volume amountRest).bids ∧
    SMap.NoZero (o.ProcessOrder bid increase price volume amountRest).asks := by
  unfold ProcessOrder
  cases bid
  · exact ⟨hb, NoZero_processBucket _ _ _ _ ha⟩
  · exact ⟨NoZero_processBucket _ _ _ _ hb, ha⟩

theorem NoZero_applyCalls (cs : List ProcessOrderCall) {o : OrderBook}
    (hb : SMap.NoZero o.bids) (ha : SMap.NoZero o.asks) :
    SMap.NoZero (o.applyCalls cs).bids ∧ SMap.NoZero (o.applyCalls cs).asks := by
  induction cs generalizing o with
  | nil => exact ⟨hb, ha⟩
  | cons c cs ih =>
    have h := NoZero_ProcessOrder c.bid c.increase c.price c.volume c.amountRest hb ha
    exact ih h.1 h.2

end OrderBook

/-! ## Lemmas on the consistent flag -/

theorem applyAction_isSome_of_contract (o : OrderBook) (bid : Bool) (price : Real)
    (ol : orders_log)
    (h : ol.action = OrderActionDelete → 0 < ol.amount ∧ ol.amount_rest = 0) :
    ∃ o1, applyAction o bid price ol = some o1 := by
  by_cases hd : ol.action = OrderActionDelete
  · obtain ⟨hp, hz⟩ := h hd
    have hne : ¬ ol.action = OrderActionAdd := by rw [hd]; decide
    refine ⟨o.ProcessOrder bid false price ol.amount ol.amount_rest, ?_⟩
    unfold applyAction
    rw [if_neg hne, if_pos hd, if_neg (not_not.2 hp), if_neg (not_not.2 hz)]
  · have := applyAction_isSome_of_not_delete o bid price ol hd
    exact Option.isSome_iff_exists.1 this

theorem bookAfter_consistent (env : Env) (ol : orders_log) (o : OrderBook)
    (h : (bookAfter env ol o).isConsistent = true) : o.isConsistent = true := by
  unfold bookAfter at h
  by_cases h1 : hasFlag ol.status OrderStatusNonSystem = true
  · simpa [h1] using h
  · by_cases h2 : o.isReadyForAssembly = .Ready
    · simp only [h1, h2, if_true, if_false] at h
      cases ha : applyAction o (decide (ol.dir = 1)) (bcdToDouble env ol.price) ol with
      | none => simpa [ha] using h
      | some o1 => simp [ha] at h
    · by_cases h3 : hasFlag ol.status OrderStatusEndOfTransaction = true
      · simpa [h1, h2, h3] using h
      · simpa [h1, h2, h3] using h

theorem commitBookOf_consistent (o : OrderBook)
    (h : (commitBookOf o).isConsistent = true) :
    o.isConsistent = true ∨ o.isReadyForAssembly = .Ready := by
  unfold commitBookOf at h
  by_cases h1 : o.isReadyForAssembly = .Ready
  · exact Or.inr h1
  · by_cases h2 : o.isReadyForAssembly = .AlmostReady
    · simp only [h1, h2, if_true, if_false] at h
      exact Or.inl h
    · simp only [h1, h2, if_false] at h
      exact Or.inl h

/-! ## Lemmas on the round trip -/

namespace SMap

variable {K V : Type}

theorem mem_of_find [DecidableEq K] {m : SMap K V} {k : K} {v : V}
    (h : find m k = some v) : (k, v) ∈ m := by
  induction m with
  | nil => simp [find] at h
  | cons hd t ih =>
    obtain ⟨k', v'⟩ := hd
    by_cases h1 : k' = k
    · subst h1
      simp only [find, if_true, Option.some.injEq] at h
      subst h
      exact List.mem_cons_self _ _
    · simp only [find, h1, if_false] at h
      exact List.mem_cons_of_mem _ (ih h)

theorem erase_of_find_none [DecidableEq K] {m : SMap K V} {k : K}
    (h : find m k = none) : erase k m = m := by
  induction m with
  | nil => rfl
  | cons hd t ih =>
    obtain ⟨k', v'⟩ := hd
    by_cases h1 : k' = k
    · simp [find, h1] at h
    · simp only [find, h1, if_false] at h
      simp [erase, h1, ih h]

theorem insert_of_lt_keys [LinearOrder K] {k : K} (v : V) {t : SMap K V}
    (h : ∀ x ∈ keys t, k < x) : insert k v t = (k, v) :: t := by
  cases t with
  | nil => rfl
  | cons hd t2 =>
    obtain ⟨k2, v2⟩ := hd
    have hlt : k < k2 := h k2 (by simp [keys])
    simp [insert, hlt]

theorem insert_of_find [LinearOrder K] {m : SMap K V} {k : K} {v : V} (hwf : WF m)
    (h : find m k = some v) : insert k v m = m := by
  induction m with
  | nil => simp [find] at h
  | cons hd t ih =>
    obtain ⟨k', v'⟩ := hd
    by_cases h1 : k' = k
    · subst h1
      simp only [find, if_true, Option.some.injEq] at h
      subst h
      simp [insert]
    · simp only [find, h1, if_false] at h
      have hlt : k' < k := (List.pairwise_cons.1 hwf).1 k (mem_keys_of_find h)
      have h2 : ¬ k < k' := not_lt.2 (le_of_lt hlt)
      have h3 : ¬ k = k' := fun e => h1 e.symm
      simp [insert, h2, h3, ih (WF_tail hwf) h]

theorem insert_erase [LinearOrder K] {m : SMap K V} {k : K} {v : V} (hwf : WF m)
    (h : find m k = some v) : insert k v (erase k m) = m := by
  induction m with
  | nil => simp [find] at h
  | cons hd t ih =>
    obtain ⟨k', v'⟩ := hd
    by_cases h1 : k' = k
    · subst h1
      simp only [find, if_true, Option.some.injEq] at h
      subst h
      simp only [erase, if_true]
      rw [erase_of_find_none (find_tail_none hwf)]
      exact insert_of_lt_keys _ (List.pairwise_cons.1 hwf).1
    · simp only [find, h1, if_false] at h
      have hlt : k' < k := (List.pairwise_cons.1 hwf).1 k (mem_keys_of_find h)
      have h2 : ¬ k < k' := not_lt.2 (le_of_lt hlt)
      have h3 : ¬ k = k' := fun e => h1 e.symm
      simp [erase, h1, insert, h2, h3, ih (WF_tail hwf) h]

end SMap

namespace OrderBook

theorem processBucket_round_trip {bucket : SMap Real Int} (price : Real) (amount : Int)
    (hwf : SMap.WF bucket) (hnz : SMap.NoZero bucket) :
    processBucket (processBucket bucket true price amount (-1)) false price amount (-1) =
      bucket := by
  have hget1 : SMap.get (processBucket bucket true price amount (-1)) price 0 =
      SMap.get bucket price 0 + amount := by
    unfold SMap.get
    rw [find_processBucket_self]
    have hnv : newVolume bucket true price amount (-1) = SMap.get bucket price 0 + amount := by
      simp [newVolume]
    rw [hnv]
    unfold SMap.get
    split
    · rename_i hz
      simp [hz]
    · simp
  have hnv2 : newVolume (processBucket bucket true price amount (-1)) false price amount (-1) =
      SMap.get bucket price 0 := by
    simp [newVolume, hget1]
  have hb1 : processBucket bucket true price amount (-1) =
      if SMap.get bucket price 0 + amount = 0 then SMap.erase price bucket
      else SMap.insert price (SMap.get bucket price 0 + amount) bucket := by
    rw [processBucket_simp]
    simp [newVolume]
  rw [processBucket_simp, hnv2]
  cases hf : SMap.find bucket price with
  | none =>
    have hv : SMap.get bucket price 0 = 0 := by simp [SMap.get, hf]
    rw [hv, if_pos rfl, hb1]
    split
    · rw [SMap.erase_of_find_none (SMap.find_erase_self _ _), SMap.erase_of_find_none hf]
    · rw [SMap.erase_insert, SMap.erase_of_find_none hf]
  | some w =>
    have hv : SMap.get bucket price 0 = w := by simp [SMap.get, hf]
    have hw : w ≠ 0 := hnz (price, w) (SMap.mem_of_find hf)
    rw [hv, if_neg hw, hb1]
    split
    · exact SMap.insert_erase hwf hf
    · rw [SMap.insert_insert, SMap.insert_of_find hwf hf]

end OrderBook

/-! ## Lemmas on records for different instruments -/

namespace SMap

variable {K V : Type}

theorem insert_comm [LinearOrder K] {k1 k2 : K} (hne : k1 ≠ k2) (v1 v2 : V) (m : SMap K V) :
    insert k1 v1 (insert k2 v2 m) = insert k2 v2 (insert k1 v1 m) := by
  have hne' : k2 ≠ k1 := fun e => hne e.symm
  induction m with
  | nil =>
    rcases lt_trichotomy k1 k2 with h | h | h
    · have h' : ¬ k2 < k1 := not_lt.2 (le_of_lt h)
      simp [insert, h, h', hne, hne']
    · exact absurd h hne
    · have h' : ¬ k1 < k2 := not_lt.2 (le_of_lt h)
      simp [insert, h, h', hne, hne']
  | cons hd t ih =>
    obtain ⟨k, v⟩ := hd
    rcases lt_trichotomy k1 k with a | a | a <;> rcases lt_trichotomy k2 k with b | b | b
    · rcases lt_trichotomy k1 k2 with h | h | h
      · have h' : ¬ k2 < k1 := not_lt.2 (le_of_lt h)
        simp [insert, a, b, h, h', hne, hne']
      · exact absurd h hne
      · have h' : ¬ k1 < k2 := not_lt.2 (le_of_lt h)
        simp [insert, a, b, h, h', hne, hne']
    · subst b
      have h' : ¬ k2 < k1 := not_lt.2 (le_of_lt a)
      simp [insert, a, h', hne, hne']
    · have h : k1 < k2 := lt_trans a b
      have h' : ¬ k2 < k1 := not_lt.2 (le_of_lt h)
      have b' : ¬ k2 < k := not_lt.2 (le_of_lt b)
      have b'' : ¬ k2 = k := fun e => (ne_of_gt b) e
      simp [insert, a, b', b'', h', hne, hne']
    · subst a
      have h' : ¬ k1 < k2 := not_lt.2 (le_of_lt b)
      simp [insert, b, h', hne, hne']
    · exact absurd (a.trans b.symm) hne
    · subst a
      have b' : ¬ k2 < k1 := not_lt.2 (le_of_lt b)
      simp [insert, b', hne, hne']
    · have h : k2 < k1 := lt_trans b a
      have h' : ¬ k1 < k2 := not_lt.2 (le_of_lt h)
      have a' : ¬ k1 < k := not_lt.2 (le_of_lt a)
      have a'' : ¬ k1 = k := fun e => (ne_of_gt a) e
      simp [insert, b, a', a'', h', hne, hne']
    · subst b
      have a' : ¬ k1 < k2 := not_lt.2 (le_of_lt a)
      simp [insert, a', hne, hne']
    · have a' : ¬ k1 < k := not_lt.2 (le_of_lt a)
      have a'' : ¬ k1 = k := fun e => (ne_of_gt a) e
      have b' : ¬ k2 < k := not_lt.2 (le_of_lt b)
      have b'' : ¬ k2 = k := fun e => (ne_of_gt b) e
      simp [insert, a', a'', b', b'', ih]

theorem index_insert_ne [LinearOrder K] {k1 k2 : K} (hne : k1 ≠ k2) (v d : V) (m : SMap K V) :
    index (insert k2 v m) k1 d = insert k2 v (index m k1 d) := by
  unfold index
  rw [find_insert_ne hne]
  cases find m k1 with
  | none => exact insert_comm hne d v m
  | some w => rfl

theorem index_of_find_none [LinearOrder K] {m : SMap K V} {k : K} (d : V)
    (h : find m k = none) : index m k d = insert k d m := by
  simp [index, h]

theorem index_index_ne [LinearOrder K] {k1 k2 : K} (hne : k1 ≠ k2) (d1 d2 : V)
    (m : SMap K V) :
    index (index m k2 d2) k1 d1 = index (index m k1 d1) k2 d2 := by
  have hne' : k2 ≠ k1 := fun e => hne e.symm
  cases h2 : find m k2 with
  | none =>
    have h2' : find (index m k1 d1) k2 = none := by rw [find_index_ne hne', h2]
    rw [index_of_find_none d2 h2, index_insert_ne hne, index_of_find_none d2 h2']
  | some w =>
    have h2' : find (index m k1 d1) k2 = some w := by rw [find_index_ne hne', h2]
    rw [index_of_find d2 h2, index_of_find d2 h2']

end SMap
theorem ordersLog_eq (env : Env) (ol : orders_log) (s : Engine) :
    ordersLog env ol s =
      if recordAborts env ol (SMap.get s.orderBooks ol.isin_id OrderBook.new) then
        .aborted { s with orderBooks := SMap.index s.orderBooks ol.isin_id OrderBook.new }
      else
        .ok { s with orderBooks :=
                (writeBook ol.isin_id
                  (recordWrite env ol (SMap.get s.orderBooks ol.isin_id OrderBook.new))
                  s.orderBooks) } := by
  have hidx := SMap.find_index_self s.orderBooks ol.isin_id OrderBook.new
  have hget : SMap.get (SMap.index s.orderBooks ol.isin_id OrderBook.new) ol.isin_id
      OrderBook.new = SMap.get s.orderBooks ol.isin_id OrderBook.new :=
    SMap.get_of_find _ hidx
  unfold ordersLog recordAborts recordWrite writeBook
  simp only [hget]
  by_cases h1 : hasFlag ol.status OrderStatusNonSystem = true
  · simp [h1]
  · by_cases h2 : (SMap.get s.orderBooks ol.isin_id OrderBook.new).isReadyForAssembly = .Ready
    · simp only [h1, h2, not_false_eq_true, if_true, if_false]
      cases applyAction (SMap.get s.orderBooks ol.isin_id OrderBook.new) (decide (ol.dir = 1))
          (bcdToDouble env ol.price) ol with
      | none => simp
      | some o1 => simp
    · by_cases h3 : hasFlag ol.status OrderStatusEndOfTransaction = true
      · simp [h1, h2, h3]
      · simp [h1, h2, h3]

theorem get_writeBook_ne {k j : Int} (h : j ≠ k) (w : Option OrderBook)
    (books : SMap Int OrderBook) :
    SMap.get (writeBook k w books) j OrderBook.new = SMap.get books j OrderBook.new := by
  unfold SMap.get writeBook
  cases w with
  | none => simp only []; rw [SMap.find_index_ne h]
  | some o1 => simp only []; rw [SMap.find_insert_ne h, SMap.find_index_ne h]

theorem writeBook_comm {k1 k2 : Int} (h : k1 ≠ k2) (w1 w2 : Option OrderBook)
    (books : SMap Int OrderBook) :
    writeBook k1 w1 (writeBook k2 w2 books) = writeBook k2 w2 (writeBook k1 w1 books) := by
  have h' : k2 ≠ k1 := fun e => h e.symm
  unfold writeBook
  cases w1 with
  | none =>
    cases w2 with
    | none => exact SMap.index_index_ne h _ _ _
    | some o2 =>
      simp only []
      rw [SMap.index_insert_ne h, SMap.index_index_ne h]
  | some o1 =>
    cases w2 with
    | none =>
      simp only []
      rw [SMap.index_insert_ne h', SMap.index_index_ne h]
    | some o2 =>
      simp only []
      rw [SMap.index_insert_ne h, SMap.index_insert_ne h', SMap.insert_comm h,
        SMap.index_index_ne h]
theorem run_two_records (env : Env) (s : Engine) (ra rb : orders_log)
    (hne : ra.isin_id ≠ rb.isin_id) :
    run env [.CG_MSG_STREAM_DATA env.orders_log_index ra,
             .CG_MSG_STREAM_DATA env.orders_log_index rb] s =
      if recordAborts env ra (SMap.get s.orderBooks ra.isin_id OrderBook.new) then
        .aborted { s with orderBooks := SMap.index s.orderBooks ra.isin_id OrderBook.new }
      else if recordAborts env rb (SMap.get s.orderBooks rb.isin_id OrderBook.new) then
        .aborted { s with orderBooks :=
          (SMap.index
            (writeBook ra.isin_id
              (recordWrite env ra (SMap.get s.orderBooks ra.isin_id OrderBook.new))
              s.orderBooks)
            rb.isin_id OrderBook.new) }
      else
        .ok { s with orderBooks :=
          (writeBook rb.isin_id
            (recordWrite env rb (SMap.get s.orderBooks rb.isin_id OrderBook.new))
            (writeBook ra.isin_id
              (recordWrite env ra (SMap.get s.orderBooks ra.isin_id OrderBook.new))
              s.orderBooks)) } := by
  have hne' : rb.isin_id ≠ ra.isin_id := fun e => hne e.symm
  simp only [run, callback_ordersLog]
  rw [ordersLog_eq env ra s]
  cases ha : recordAborts env ra (SMap.get s.orderBooks ra.isin_id OrderBook.new) with
  | true => simp
  | false =>
    simp only [Bool.false_eq_true, if_false]
    rw [ordersLog_eq env rb]
    simp only [get_writeBook_ne hne']
    cases hb : recordAborts env rb (SMap.get s.orderBooks rb.isin_id OrderBook.new) with
    | true => simp
    | false => simp

/-! ## The claims -/

/-- C1: evaluation at the failing input.  On the empty `Ready` book of instrument 100 the
system record `Reduce(bid, 100, 5)` is accepted and leaves the bid level `100 -> -5`, on
which the check of `Verify` fails. -/
theorem reduce_on_absent_level_goes_negative :
    exEngine.book 100 = some OrderBook.new ∧
    run env0 [.CG_MSG_STREAM_DATA 0 exReduce] exEngine =
      .ok { exEngine with
            orderBooks := [(100, { bids := [(100, -5)], asks := [], isConsistent := false,
                                   isReadyForAssembly := .Ready })] } ∧
    OrderBook.Verify { bids := [(100, -5)], asks := [], isConsistent := false,
                       isReadyForAssembly := .Ready } = false := by
  have hs : hasFlag 0 OrderStatusNonSystem = false := by decide
  refine ⟨by decide, ?_, by decide⟩
  simp [run, fullOrderLogCallback, env0, ordersLog, hs, exEngine, exReduce, SMap.index,
    SMap.find, SMap.get, SMap.insert, SMap.erase, applyAction, OrderActionAdd,
    OrderActionDelete, OrderActionReduce, OrderBook.new, OrderBook.ProcessOrder,
    OrderBook.processBucket, bcdToDouble, readPowersOf10, size_t_of, powersOf10]

/-- C2: on a well-formed ladder `GetBestBid` is `0` when there is no bid and otherwise a
bid price that is at least every bid price present; `GetBestAsk` is `0` when there is no
ask and otherwise an ask price that is at most every ask price present. -/
theorem best_of_side_queries (o : OrderBook) (hb : SMap.WF o.bids) (ha : SMap.WF o.asks) :
    (o.bids = [] → o.GetBestBid = 0) ∧
    (o.bids ≠ [] →
      o.GetBestBid ∈ SMap.keys o.bids ∧ ∀ p ∈ SMap.keys o.bids, p ≤ o.GetBestBid) ∧
    (o.asks = [] → o.GetBestAsk = 0) ∧
    (o.asks ≠ [] →
      o.GetBestAsk ∈ SMap.keys o.asks ∧ ∀ p ∈ SMap.keys o.asks, o.GetBestAsk ≤ p) := by
  refine ⟨?_, ?_, ?_, ?_⟩
  · intro h
    simp [OrderBook.GetBestBid, h]
  · intro h
    unfold OrderBook.GetBestBid
    cases hl : o.bids.getLast? with
    | none => exact absurd (List.getLast?_eq_none_iff.1 hl) h
    | some kv => exact SMap.getLast_max hb hl
  · intro h
    simp [OrderBook.GetBestAsk, h]
  · intro h
    unfold OrderBook.GetBestAsk
    cases hl : o.asks.head? with
    | none => exact absurd (List.head?_eq_none_iff.1 hl) h
    | some kv => exact SMap.head_min ha hl

/-- Witness for C2 -/
theorem best_of_side_queries_witness :
    SMap.WF exBook.bids ∧ SMap.WF exBook.asks ∧ exBook.GetBestBid = 99 ∧
      exBook.GetBestAsk = 101 ∧
      (exBook.bids ≠ [] →
        exBook.GetBestBid ∈ SMap.keys exBook.bids ∧
          ∀ p ∈ SMap.keys exBook.bids, p ≤ exBook.GetBestBid) :=
  ⟨by decide, by decide, by decide, by decide,
    (best_of_side_queries exBook (by decide) (by decide)).2.1⟩

/-- C3: evaluation at the failing input.  The constructor leaves a new book `Ready`, so
the first record seen for instrument 100, an `Add(bid, 100, 5)` without the
end-of-transaction flag, creates a `Ready` book and is applied to its ladder at once. -/
theorem new_book_is_Ready :
    OrderBook.new.isReadyForAssembly = .Ready ∧
    emptyEngine.book 100 = none ∧
    fullOrderLogCallback env0 (.CG_MSG_STREAM_DATA 0 (exAdd 0)) emptyEngine =
      .ok { emptyEngine with
            orderBooks := [(100, { bids := [(100, 5)], asks := [], isConsistent := false,
                                   isReadyForAssembly := .Ready })] } := by
  have hs : hasFlag 0 OrderStatusNonSystem = false := by decide
  have hp := exAdd_price 0
  simp only [exAdd, env0] at hp
  refine ⟨rfl, by decide, ?_⟩
  simp [fullOrderLogCallback, env0, ordersLog, hs, emptyEngine, exAdd, SMap.index,
    SMap.find, SMap.get, SMap.insert, SMap.erase, applyAction, OrderActionAdd,
    OrderBook.new, OrderBook.ProcessOrder, OrderBook.processBucket, hp]

/-- C4: whatever the message, a book that exists before the call exists after it, its
readiness has not decreased in the order `NotReady < AlmostReady < Ready`, a `Ready` book
is still `Ready`, and a `NotReady` book is not `Ready` after the call. -/
theorem readiness_never_regresses (env : Env) (s : Engine) (msg : cg_msg_t) (id : Int)
    (o : OrderBook) (h : s.book id = some o) :
    ∃ o', (fullOrderLogCallback env msg s).state.book id = some o' ∧
      o.isReadyForAssembly.rank ≤ o'.isReadyForAssembly.rank ∧
      (o.isReadyForAssembly = .Ready → o'.isReadyForAssembly = .Ready) ∧
      ¬ (o.isReadyForAssembly = .NotReady ∧ o'.isReadyForAssembly = .Ready) := by
  unfold Engine.book at h ⊢
  have hsame : ∃ o', SMap.find s.orderBooks id = some o' ∧
      o.isReadyForAssembly.rank ≤ o'.isReadyForAssembly.rank ∧
      (o.isReadyForAssembly = .Ready → o'.isReadyForAssembly = .Ready) ∧
      ¬ (o.isReadyForAssembly = .NotReady ∧ o'.isReadyForAssembly = .Ready) := by
    refine ⟨o, h, le_refl _, fun hr => hr, ?_⟩
    rintro ⟨h1, h2⟩
    rw [h1] at h2
    cases h2
  cases msg with
  | CG_MSG_TN_COMMIT =>
    refine ⟨commitBookOf o, ?_, commitBookOf_rank o⟩
    simp [fullOrderLogCallback, Outcome.state, find_commit_books, h]
  | CG_MSG_STREAM_DATA idx ol =>
    by_cases hi : idx = env.orders_log_index
    · simp only [fullOrderLogCallback, hi, if_true]
      by_cases hid : id = ol.isin_id
      · subst hid
        refine ⟨bookAfter env ol o, ?_, bookAfter_rank env ol o⟩
        rw [ordersLog_find_self, SMap.get_of_find _ h]
      · rw [ordersLog_find_ne env ol s hid]
        exact hsame
    · simp only [fullOrderLogCallback, hi, if_false, Outcome.state]
      exact hsame
  | other =>
    simp only [fullOrderLogCallback, Outcome.state]
    exact hsame

/-- Witness for C4 -/
theorem readiness_never_regresses_witness :
    exEngineAlmost.book 100 =
      some { bids := [], asks := [], isConsistent := false,
             isReadyForAssembly := .AlmostReady } ∧
    ∃ o', (fullOrderLogCallback env0 .CG_MSG_TN_COMMIT exEngineAlmost).state.book 100 = some o' ∧
      Readiness.AlmostReady.rank ≤ o'.isReadyForAssembly.rank ∧
      (Readiness.AlmostReady = .Ready → o'.isReadyForAssembly = .Ready) ∧
      ¬ (Readiness.AlmostReady = .NotReady ∧ o'.isReadyForAssembly = .Ready) :=
  ⟨by decide,
    readiness_never_regresses env0 exEngineAlmost .CG_MSG_TN_COMMIT 100
      { bids := [], asks := [], isConsistent := false, isReadyForAssembly := .AlmostReady }
      (by decide)⟩

/-- C5: a book that is `AlmostReady` before a commit is `Ready` after it with its
consistent flag and ladder as before, and the commit leaves the snapshot entry of its
instrument as it was; the next commit sets the flag and records the snapshot. -/
theorem almost_ready_commit_not_snapshotted (env : Env) (s : Engine) (id : Int)
    (o : OrderBook) (hwf : SMap.WF s.orderBooks) (h : s.book id = some o)
    (ha : o.isReadyForAssembly = .AlmostReady) :
    ∃ s1 s2, fullOrderLogCallback env .CG_MSG_TN_COMMIT s = .ok s1 ∧
      s1.book id = some { o with isReadyForAssembly := .Ready } ∧
      s1.snapshot id = s.snapshot id ∧
      fullOrderLogCallback env .CG_MSG_TN_COMMIT s1 = .ok s2 ∧
      s2.book id = some { o with isReadyForAssembly := .Ready, isConsistent := true } ∧
      s2.snapshot id = some { bid := o.GetBestBid, ask := o.GetBestAsk } := by
  unfold Engine.book Engine.snapshot at *
  have hb1 : SMap.find (commit s).orderBooks id =
      some { o with isReadyForAssembly := .Ready } := by
    rw [find_commit_books, h]
    simp [commitBookOf, ha]
  refine ⟨commit s, commit (commit s), rfl, hb1, ?_, rfl, ?_, ?_⟩
  · rw [find_commit_snaps s id hwf, h]
    simp [snapshotAfter, ha]
  · rw [find_commit_books, hb1]
    simp [commitBookOf]
  · rw [find_commit_snaps (commit s) id (WF_commit s hwf), hb1]
    simp [snapshotAfter, OrderBook.GetBestBid, OrderBook.GetBestAsk]

/-- Witness for C5 -/
theorem almost_ready_commit_not_snapshotted_witness :
    ∃ s1 s2, fullOrderLogCallback env0 .CG_MSG_TN_COMMIT exEngineAlmost = .ok s1 ∧
      s1.book 100 = some { bids := [], asks := [], isConsistent := false,
                           isReadyForAssembly := .Ready } ∧
      s1.snapshot 100 = exEngineAlmost.snapshot 100 ∧
      fullOrderLogCallback env0 .CG_MSG_TN_COMMIT s1 = .ok s2 ∧
      s2.book 100 = some { bids := [], asks := [], isConsistent := true,
                           isReadyForAssembly := .Ready } ∧
      s2.snapshot 100 = some { bid := 0, ask := 0 } :=
  almost_ready_commit_not_snapshotted env0 exEngineAlmost 100
    { bids := [], asks := [], isConsistent := false, isReadyForAssembly := .AlmostReady }
    (by decide) (by decide) rfl

/-- C6: the scenario for instrument 100, from an empty `NotReady` book: an `Add` without
the end-of-transaction flag changes nothing; an `Add` with the flag makes the book
`AlmostReady`; a commit makes it `Ready` and leaves the snapshot entry of 100 as it was;
`Add(bid, 100, 5)` makes the bid side `{100 -> 5}`; a second commit records the snapshot
`(100, 0)` and sets the consistent flag. -/
theorem scenario_instrument_100 (env : Env) (s : Engine) (c : Bool) (r1 r2 r4 : orders_log)
    (hwf : SMap.WF s.orderBooks)
    (h0 : s.book 100 = some { bids := [], asks := [], isConsistent := c,
                              isReadyForAssembly := .NotReady })
    (h1 : r1.isin_id = 100 ∧ hasFlag r1.status OrderStatusNonSystem = false ∧
      hasFlag r1.status OrderStatusEndOfTransaction = false ∧ r1.action = OrderActionAdd ∧
      r1.dir = 1 ∧ bcdToDouble env r1.price = 100 ∧ r1.amount = 5 ∧ r1.amount_rest = -1)
    (h2 : r2.isin_id = 100 ∧ hasFlag r2.status OrderStatusNonSystem = false ∧
      hasFlag r2.status OrderStatusEndOfTransaction = true ∧ r2.action = OrderActionAdd ∧
      r2.amount_rest = -1)
    (h4 : r4.isin_id = 100 ∧ hasFlag r4.status OrderStatusNonSystem = false ∧
      r4.action = OrderActionAdd ∧ r4.dir = 1 ∧ bcdToDouble env r4.price = 100 ∧
      r4.amount = 5 ∧ r4.amount_rest = -1) :
    ∃ s1 s2 s3 s4 s5,
      fullOrderLogCallback env (.CG_MSG_STREAM_DATA env.orders_log_index r1) s = .ok s1 ∧
      s1.book 100 = some { bids := [], asks := [], isConsistent := c,
                           isReadyForAssembly := .NotReady } ∧
      fullOrderLogCallback env (.CG_MSG_STREAM_DATA env.orders_log_index r2) s1 = .ok s2 ∧
      s2.book 100 = some { bids := [], asks := [], isConsistent := c,
                           isReadyForAssembly := .AlmostReady } ∧
      fullOrderLogCallback env .CG_MSG_TN_COMMIT s2 = .ok s3 ∧
      s3.book 100 = some { bids := [], asks := [], isConsistent := c,
                           isReadyForAssembly := .Ready } ∧
      s3.snapshot 100 = s.snapshot 100 ∧
      fullOrderLogCallback env (.CG_MSG_STREAM_DATA env.orders_log_index r4) s3 = .ok s4 ∧
      s4.book 100 = some { bids := [(100, 5)], asks := [], isConsistent := false,
                           isReadyForAssembly := .Ready } ∧
      fullOrderLogCallback env .CG_MSG_TN_COMMIT s4 = .ok s5 ∧
      s5.book 100 = some { bids := [(100, 5)], asks := [], isConsistent := true,
                           isReadyForAssembly := .Ready } ∧
      s5.snapshot 100 = some { bid := 100, ask := 0 } := by
  obtain ⟨i1, sys1, eot1, a1, -, -, -, -⟩ := h1
  obtain ⟨i2, sys2, eot2, a2, -⟩ := h2
  obtain ⟨i4, sys4, a4, d4, p4, m4, rest4⟩ := h4
  -- step 1
  have b1 : (ordersLog env r1 s).state.book 100 =
      some { bids := [], asks := [], isConsistent := c, isReadyForAssembly := .NotReady } := by
    have := book_after_record env r1 s _ (i1 ▸ h0)
    rw [i1] at this
    rw [this]
    simp [bookAfter, sys1, eot1]
  have w1 : SMap.WF (ordersLog env r1 s).state.orderBooks := WF_ordersLog env r1 s hwf
  have n1 : (ordersLog env r1 s).state.snapshot 100 = s.snapshot 100 := by
    unfold Engine.snapshot
    rw [(ordersLog_other_maps env r1 s).2.2]
  -- step 2
  have b2 : (ordersLog env r2 (ordersLog env r1 s).state).state.book 100 =
      some { bids := [], asks := [], isConsistent := c, isReadyForAssembly := .AlmostReady } := by
    have := book_after_record env r2 (ordersLog env r1 s).state _ (i2 ▸ b1)
    rw [i2] at this
    rw [this]
    simp [bookAfter, sys2, eot2]
  have w2 : SMap.WF (ordersLog env r2 (ordersLog env r1 s).state).state.orderBooks :=
    WF_ordersLog env r2 _ w1
  have n2 : (ordersLog env r2 (ordersLog env r1 s).state).state.snapshot 100 =
      s.snapshot 100 := by
    unfold Engine.snapshot at n1 ⊢
    rw [(ordersLog_other_maps env r2 _).2.2, n1]
  set t2 := (ordersLog env r2 (ordersLog env r1 s).state).state with ht2
  -- step 3
  have b3 : (commit t2).book 100 =
      some { bids := [], asks := [], isConsistent := c, isReadyForAssembly := .Ready } := by
    unfold Engine.book at b2 ⊢
    rw [find_commit_books, b2]
    simp [commitBookOf]
  have n3 : (commit t2).snapshot 100 = s.snapshot 100 := by
    unfold Engine.snapshot Engine.book at *
    rw [find_commit_snaps t2 100 w2, b2]
    simp [snapshotAfter, n2]
  have w3 : SMap.WF (commit t2).orderBooks := WF_commit t2 w2
  set t3 := commit t2 with ht3
  -- step 4
  have b4 : (ordersLog env r4 t3).state.book 100 =
      some { bids := [(100, 5)], asks := [], isConsistent := false,
             isReadyForAssembly := .Ready } := by
    have := book_after_record env r4 t3 _ (i4 ▸ b3)
    rw [i4] at this
    rw [this]
    simp [bookAfter, sys4, applyAction, a4, d4, p4, m4, rest4, OrderBook.ProcessOrder,
      OrderBook.processBucket, SMap.index, SMap.find, SMap.insert, SMap.get, SMap.erase]
  have w4 : SMap.WF (ordersLog env r4 t3).state.orderBooks := WF_ordersLog env r4 t3 w3
  set t4 := (ordersLog env r4 t3).state with ht4
  -- step 5
  have b5 : (commit t4).book 100 =
      some { bids := [(100, 5)], asks := [], isConsistent := true,
             isReadyForAssembly := .Ready } := by
    unfold Engine.book at b4 ⊢
    rw [find_commit_books, b4]
    simp [commitBookOf]
  have n5 : (commit t4).snapshot 100 = some { bid := 100, ask := 0 } := by
    unfold Engine.snapshot Engine.book at *
    rw [find_commit_snaps t4 100 w4, b4]
    simp [snapshotAfter, OrderBook.GetBestBid, OrderBook.GetBestAsk]
  exact ⟨_, _, _, _, _, add_record_ok env r1 s a1, b1, add_record_ok env r2 _ a2, b2, rfl, b3,
    n3, add_record_ok env r4 _ a4, b4, rfl, b5, n5⟩

/-- Witness for C6 -/
theorem scenario_instrument_100_witness :
    ∃ s5, run env0
        [.CG_MSG_STREAM_DATA env0.orders_log_index (exAdd 0),
         .CG_MSG_STREAM_DATA env0.orders_log_index (exAdd 0x1000),
         .CG_MSG_TN_COMMIT,
         .CG_MSG_STREAM_DATA env0.orders_log_index (exAdd 0),
         .CG_MSG_TN_COMMIT] exEngineNotReady = .ok s5 ∧
      s5.book 100 = some { bids := [(100, 5)], asks := [], isConsistent := true,
                           isReadyForAssembly := .Ready } ∧
      s5.snapshot 100 = some { bid := 100, ask := 0 } := by
  obtain ⟨s1, s2, s3, s4, s5, e1, -, e2, -, e3, -, -, e4, -, e5, b5, n5⟩ :=
    scenario_instrument_100 env0 exEngineNotReady false (exAdd 0) (exAdd 0x1000) (exAdd 0)
      (by decide) (by decide)
      ⟨rfl, by decide, by decide, rfl, rfl, exAdd_price 0, rfl, rfl⟩
      ⟨rfl, by decide, by decide, rfl, rfl⟩
      ⟨rfl, by decide, rfl, rfl, exAdd_price 0, rfl, rfl⟩
  exact ⟨s5, by simp only [run, e1, e2, e3, e4, e5], b5, n5⟩

/-- C7, as stated, fails: a non-system record for an instrument without a book creates
one, so the engine state after the call differs from the state before. -/
theorem non_system_record_creates_book :
    hasFlag exNonSystem.status OrderStatusNonSystem = true ∧
    emptyEngine.book 7 = none ∧
    fullOrderLogCallback env0 (.CG_MSG_STREAM_DATA 0 exNonSystem) emptyEngine =
      .ok { emptyEngine with orderBooks := [(7, OrderBook.new)] } ∧
    (fullOrderLogCallback env0 (.CG_MSG_STREAM_DATA 0 exNonSystem) emptyEngine).state ≠
      emptyEngine := by
  have hs : hasFlag 4 OrderStatusNonSystem = true := by decide
  have he : fullOrderLogCallback env0 (.CG_MSG_STREAM_DATA 0 exNonSystem) emptyEngine =
      .ok { emptyEngine with orderBooks := [(7, OrderBook.new)] } := by
    simp [fullOrderLogCallback, env0, ordersLog, hs, emptyEngine, SMap.index, SMap.find,
      SMap.insert, exNonSystem]
  refine ⟨by decide, by decide, he, ?_⟩
  rw [he]
  decide

/-- C7, amended: a non-system record changes no existing book, no snapshot and no
instrument name; the call returns, with the state as before when the record's instrument
has a book, and otherwise with one more book, the constructed one, for that instrument. -/
theorem non_system_record_effect (env : Env) (s : Engine) (ol : orders_log)
    (hns : hasFlag ol.status OrderStatusNonSystem = true) :
    ∃ s1, fullOrderLogCallback env (.CG_MSG_STREAM_DATA env.orders_log_index ol) s = .ok s1 ∧
      s1.futureInfo = s.futureInfo ∧ s1.optionInfo = s.optionInfo ∧
      s1.orderBookShapshots = s.orderBookShapshots ∧
      (s.book ol.isin_id ≠ none → s1 = s) ∧
      (s.book ol.isin_id = none →
        s1.orderBooks = SMap.insert ol.isin_id OrderBook.new s.orderBooks ∧
        s1.book ol.isin_id = some OrderBook.new) ∧
      (∀ j, j ≠ ol.isin_id → s1.book j = s.book j) := by
  refine ⟨{ s with orderBooks := SMap.index s.orderBooks ol.isin_id OrderBook.new }, ?_, rfl,
    rfl, rfl, ?_, ?_, ?_⟩
  · simp [fullOrderLogCallback, ordersLog, hns]
  · intro h
    unfold Engine.book at h
    obtain ⟨o, ho⟩ := Option.ne_none_iff_exists'.1 h
    simp [SMap.index, ho]
  · intro h
    unfold Engine.book at h ⊢
    simp [SMap.index, h, SMap.find_insert_self]
  · intro j hj
    unfold Engine.book
    exact SMap.find_index_ne hj _ _

/-- Witness for C7 (amended) -/
theorem non_system_record_effect_witness :
    ∃ s1, fullOrderLogCallback env0 (.CG_MSG_STREAM_DATA env0.orders_log_index exNonSystem)
        exEngineTen = .ok s1 ∧
      s1.futureInfo = exEngineTen.futureInfo ∧ s1.optionInfo = exEngineTen.optionInfo ∧
      s1.orderBookShapshots = exEngineTen.orderBookShapshots ∧
      (exEngineTen.book exNonSystem.isin_id ≠ none → s1 = exEngineTen) ∧
      (exEngineTen.book exNonSystem.isin_id = none →
        s1.orderBooks = SMap.insert exNonSystem.isin_id OrderBook.new exEngineTen.orderBooks ∧
        s1.book exNonSystem.isin_id = some OrderBook.new) ∧
      (∀ j, j ≠ exNonSystem.isin_id → s1.book j = exEngineTen.book j) :=
  non_system_record_effect env0 exEngineTen exNonSystem (by decide)

/-- C8: evaluation at the failing input.  On a `Ready` book with bids `{100 -> 10}` the
system record `Delete(bid, 100, amount 3, amount_rest 0)`, which meets the contract of
the delete case, leaves no bid level at 100: the level is erased instead of holding
`10 - 3 = 7`. -/
theorem delete_erases_whole_level :
    fullOrderLogCallback env0 (.CG_MSG_STREAM_DATA 0 (exDelete 3 0)) exEngineTen =
      .ok { exEngineTen with
            orderBooks := [(100, { bids := [], asks := [], isConsistent := false,
                                   isReadyForAssembly := .Ready })] } ∧
    (fullOrderLogCallback env0 (.CG_MSG_STREAM_DATA 0 (exDelete 3 0)) exEngineTen).state.book
      100 ≠ some { bids := [(100, 7)], asks := [], isConsistent := false,
                   isReadyForAssembly := .Ready } := by
  have hs : hasFlag 0 OrderStatusNonSystem = false := by decide
  have he : fullOrderLogCallback env0 (.CG_MSG_STREAM_DATA 0 (exDelete 3 0)) exEngineTen =
      .ok { exEngineTen with
            orderBooks := [(100, { bids := [], asks := [], isConsistent := false,
                                   isReadyForAssembly := .Ready })] } := by
    simp [fullOrderLogCallback, env0, ordersLog, hs, exEngineTen, exDelete, SMap.index,
      SMap.find, SMap.get, SMap.insert, SMap.erase, applyAction, OrderActionAdd,
      OrderActionDelete, OrderBook.ProcessOrder, OrderBook.processBucket, bcdToDouble,
      readPowersOf10, size_t_of, powersOf10]
  refine ⟨he, ?_⟩
  rw [he]
  decide

/-- C9: on a `Ready` book a system `Delete` record with `amount <= 0` or with
`amount_rest != 0` fails an assertion of the delete case: the call aborts, and the memory
at the abort is the engine state before the call, so no level was removed or altered. -/
theorem delete_contract_violation_aborts (env : Env) (s : Engine) (ol : orders_log)
    (o : OrderBook) (h : s.book ol.isin_id = some o) (hr : o.isReadyForAssembly = .Ready)
    (hsys : hasFlag ol.status OrderStatusNonSystem = false)
    (hdel : ol.action = OrderActionDelete) (hbad : ol.amount ≤ 0 ∨ ol.amount_rest ≠ 0) :
    fullOrderLogCallback env (.CG_MSG_STREAM_DATA env.orders_log_index ol) s = .aborted s := by
  unfold Engine.book at h
  have hnone : applyAction o (decide (ol.dir = 1)) (bcdToDouble env ol.price) ol = none := by
    unfold applyAction
    have hne : ¬ ol.action = OrderActionAdd := by rw [hdel]; decide
    rw [if_neg hne, if_pos hdel]
    rcases hbad with hb | hb
    · rw [if_pos (not_lt.2 hb)]
    · by_cases hp : 0 < ol.amount
      · rw [if_neg (not_not.2 hp), if_pos hb]
      · rw [if_pos hp]
  simp [fullOrderLogCallback, ordersLog, SMap.index_of_find _ h, SMap.get_of_find _ h, hsys, hr,
    hnone]

/-- Witness for C9 -/
theorem delete_contract_violation_aborts_witness :
    fullOrderLogCallback env0 (.CG_MSG_STREAM_DATA env0.orders_log_index (exDelete 0 0))
      exEngineTen = .aborted exEngineTen :=
  delete_contract_violation_aborts env0 exEngineTen (exDelete 0 0)
    { bids := [(100, 10)], asks := [], isConsistent := false, isReadyForAssembly := .Ready }
    (by decide) rfl (by decide) rfl (Or.inl (by decide))

/-- C10: `ProcessOrder` for an Add (`increase = true`) with `amountRest = r`, `r != -1`,
leaves the touched level with volume `r` when `r != 0` and without a level when `r = 0`,
whatever the prior volume and the amount; every other level of that side and the whole
opposite side are as before. -/
theorem absolute_remainder_override (o : OrderBook) (bid : Bool) (price : Real)
    (amount r : Int) (hr : r ≠ -1) :
    SMap.find ((o.ProcessOrder bid true price amount r).side bid) price =
      (if r = 0 then none else some r) ∧
    (∀ q, q ≠ price →
      SMap.find ((o.ProcessOrder bid true price amount r).side bid) q =
        SMap.find (o.side bid) q) ∧
    (o.ProcessOrder bid true price amount r).side (!bid) = o.side (!bid) := by
  have hnv : ∀ b : SMap Real Int, OrderBook.newVolume b true price amount r = r := by
    intro b
    simp [OrderBook.newVolume, hr]
  cases bid
  · simp only [OrderBook.ProcessOrder, OrderBook.side, Bool.false_eq_true, if_false,
      Bool.not_false, if_true]
    refine ⟨?_, ?_, trivial⟩
    · rw [OrderBook.find_processBucket_self, hnv]
    · intro q hq
      exact OrderBook.find_processBucket_ne _ _ hq _ _
  · simp only [OrderBook.ProcessOrder, OrderBook.side, if_true, Bool.not_true,
      Bool.false_eq_true, if_false]
    refine ⟨?_, ?_, trivial⟩
    · rw [OrderBook.find_processBucket_self, hnv]
    · intro q hq
      exact OrderBook.find_processBucket_ne _ _ hq _ _

/-- Witness for C10: prior volume 3, amount 4, remainder 7 gives 7. -/
theorem absolute_remainder_override_witness :
    (exBookThree.ProcessOrder true true 100 4 7).bids = [(100, 7)] ∧
    SMap.find ((exBookThree.ProcessOrder true true 100 4 7).side true) 100 =
      (if (7 : Int) = 0 then none else some 7) :=
  ⟨by decide, (absolute_remainder_override exBookThree true 100 4 7 (by decide)).1⟩

/-- C11: `ProcessOrder` with the remainder absent (`amountRest = -1`) leaves the touched
level with the prior volume `v` (`0` for a missing level) plus the amount for an increase
and minus the amount for a decrease; the level is present afterwards exactly when that
volume is not `0`; every other level of that side and the whole opposite side are as
before. -/
theorem incremental_apply (o : OrderBook) (bid increase : Bool) (price : Real) (amount : Int) :
    SMap.find ((o.ProcessOrder bid increase price amount (-1)).side bid) price =
      (if (if increase then SMap.get (o.side bid) price 0 + amount
           else SMap.get (o.side bid) price 0 - amount) = 0 then none
       else some (if increase then SMap.get (o.side bid) price 0 + amount
                  else SMap.get (o.side bid) price 0 - amount)) ∧
    (∀ q, q ≠ price →
      SMap.find ((o.ProcessOrder bid increase price amount (-1)).side bid) q =
        SMap.find (o.side bid) q) ∧
    (o.ProcessOrder bid increase price amount (-1)).side (!bid) = o.side (!bid) := by
  have hnv : ∀ b : SMap Real Int, OrderBook.newVolume b increase price amount (-1) =
      (if increase then SMap.get b price 0 + amount else SMap.get b price 0 - amount) := by
    intro b
    simp [OrderBook.newVolume]
  cases bid
  · simp only [OrderBook.ProcessOrder, OrderBook.side, Bool.false_eq_true, if_false,
      Bool.not_false, if_true]
    refine ⟨?_, ?_, trivial⟩
    · rw [OrderBook.find_processBucket_self, hnv]
    · intro q hq
      exact OrderBook.find_processBucket_ne _ _ hq _ _
  · simp only [OrderBook.ProcessOrder, OrderBook.side, if_true, Bool.not_true,
      Bool.false_eq_true, if_false]
    refine ⟨?_, ?_, trivial⟩
    · rw [OrderBook.find_processBucket_self, hnv]
    · intro q hq
      exact OrderBook.find_processBucket_ne _ _ hq _ _

/-- C12: after a commit a book that was `Ready` before it has its consistent flag set
and is otherwise as before, the snapshot entry of its instrument is the pair
`(GetBestBid, GetBestAsk)` of its ladder, `0` standing for an empty side, and every
instrument has the same bid and ask levels as before the commit. -/
theorem commit_snapshot (env : Env) (s : Engine) (id : Int) (o : OrderBook)
    (hwf : SMap.WF s.orderBooks) (h : s.book id = some o)
    (hr : o.isReadyForAssembly = .Ready) :
    ∃ s1, fullOrderLogCallback env .CG_MSG_TN_COMMIT s = .ok s1 ∧
      s1.book id = some { o with isConsistent := true } ∧
      s1.snapshot id = some { bid := o.GetBestBid, ask := o.GetBestAsk } ∧
      (o.bids = [] → o.GetBestBid = 0) ∧ (o.asks = [] → o.GetBestAsk = 0) ∧
      (∀ j, (s1.book j).map (fun b => (b.bids, b.asks)) =
        (s.book j).map (fun b => (b.bids, b.asks))) := by
  unfold Engine.book Engine.snapshot at *
  refine ⟨commit s, rfl, ?_, ?_, ?_, ?_, ?_⟩
  · rw [find_commit_books, h]
    simp [commitBookOf, hr]
  · rw [find_commit_snaps s id hwf, h]
    simp [snapshotAfter, hr]
  · intro hb
    simp [OrderBook.GetBestBid, hb]
  · intro ha
    simp [OrderBook.GetBestAsk, ha]
  · intro j
    rw [find_commit_books]
    cases SMap.find s.orderBooks j with
    | none => rfl
    | some b => simp [commitBookOf_ladder b]

/-- Witness for C12 -/
theorem commit_snapshot_witness :
    ∃ s1, fullOrderLogCallback env0 .CG_MSG_TN_COMMIT exEngineTen = .ok s1 ∧
      s1.book 100 = some { bids := [(100, 10)], asks := [], isConsistent := true,
                           isReadyForAssembly := .Ready } ∧
      s1.snapshot 100 = some { bid := 100, ask := 0 } := by
  obtain ⟨s1, h1, h2, h3, -⟩ := commit_snapshot env0 exEngineTen 100
    { bids := [(100, 10)], asks := [], isConsistent := false, isReadyForAssembly := .Ready }
    (by decide) (by decide) rfl
  exact ⟨s1, h1, h2, h3⟩

/-- C13: on a book that is `NotReady` or `AlmostReady` a system record for its instrument,
whatever its action, price and amounts, is accepted and leaves both sides of the ladder
and the consistent flag as they were; the readiness afterwards is `AlmostReady` when the
status has the end-of-transaction bit and is as before otherwise. -/
theorem gating_while_not_ready (env : Env) (s : Engine) (ol : orders_log) (o : OrderBook)
    (h : s.book ol.isin_id = some o)
    (hnr : o.isReadyForAssembly = .NotReady ∨ o.isReadyForAssembly = .AlmostReady)
    (hsys : hasFlag ol.status OrderStatusNonSystem = false) :
    ∃ s1 o1, fullOrderLogCallback env (.CG_MSG_STREAM_DATA env.orders_log_index ol) s = .ok s1 ∧
      s1.book ol.isin_id = some o1 ∧
      o1.bids = o.bids ∧ o1.asks = o.asks ∧ o1.isConsistent = o.isConsistent ∧
      o1.isReadyForAssembly =
        (if hasFlag ol.status OrderStatusEndOfTransaction then .AlmostReady
         else o.isReadyForAssembly) := by
  unfold Engine.book at *
  have hne : ¬ o.isReadyForAssembly = .Ready := by
    rcases hnr with hn | hn <;> rw [hn] <;> decide
  by_cases heot : hasFlag ol.status OrderStatusEndOfTransaction = true
  · have hcb : fullOrderLogCallback env (.CG_MSG_STREAM_DATA env.orders_log_index ol) s =
        .ok { s with orderBooks :=
                (SMap.insert ol.isin_id { o with isReadyForAssembly := .AlmostReady }
                  s.orderBooks) } := by
      simp only [fullOrderLogCallback, if_true, ordersLog, SMap.index_of_find _ h,
        SMap.get_of_find _ h, hsys, hne, heot, Bool.false_eq_true, not_false_eq_true, if_false]
    refine ⟨_, { o with isReadyForAssembly := .AlmostReady }, hcb, ?_, rfl, rfl, rfl, ?_⟩
    · exact SMap.find_insert_self _ _ _
    · simp [heot]
  · have hcb : fullOrderLogCallback env (.CG_MSG_STREAM_DATA env.orders_log_index ol) s =
        .ok { s with orderBooks := s.orderBooks } := by
      simp only [fullOrderLogCallback, if_true, ordersLog, SMap.index_of_find _ h,
        SMap.get_of_find _ h, hsys, hne, heot, Bool.false_eq_true, not_false_eq_true, if_false]
    refine ⟨_, o, hcb, h, rfl, rfl, rfl, ?_⟩
    simp [heot]

/-- Witness for C13 -/
theorem gating_while_not_ready_witness :
    ∃ s1 o1, fullOrderLogCallback env0 (.CG_MSG_STREAM_DATA env0.orders_log_index (exAdd 0x1000))
        exEngineNotReady = .ok s1 ∧
      s1.book 100 = some o1 ∧ o1.bids = [] ∧ o1.asks = [] ∧ o1.isConsistent = false ∧
      o1.isReadyForAssembly = .AlmostReady :=
  gating_while_not_ready env0 exEngineNotReady (exAdd 0x1000)
    { bids := [], asks := [], isConsistent := false, isReadyForAssembly := .NotReady }
    (by decide) (Or.inl rfl) (by decide)

/-- C14, as stated, fails: with bids `{0 -> 5}` and asks `{10 -> 3}` both sides are
populated, yet `GetPrice` returns the best ask `10` and not the mean `5` of the best bid
`0` and the best ask `10`. -/
theorem GetPrice_not_mean_at_zero_best_bid :
    exBookZeroBid.bids ≠ [] ∧ exBookZeroBid.asks ≠ [] ∧
    exBookZeroBid.GetBestBid = 0 ∧ exBookZeroBid.GetBestAsk = 10 ∧
    exBookZeroBid.GetPrice = 10 ∧
    exBookZeroBid.GetPrice ≠ (exBookZeroBid.GetBestBid + exBookZeroBid.GetBestAsk) / 2 := by
  have hb : exBookZeroBid.GetBestBid = 0 := by decide
  have ha : exBookZeroBid.GetBestAsk = 10 := by decide
  have hp : exBookZeroBid.GetPrice = 10 := by
    simp [OrderBook.GetPrice, hb, ha]
  refine ⟨by decide, by decide, hb, ha, hp, ?_⟩
  rw [hp, hb, ha]
  norm_num

/-- C14, amended: `GetPrice` is `0` when both sides are empty, the arithmetic mean of the
best bid and the best ask when both sides are populated and neither best price is `0`,
and the best price of the populated side when exactly one side is populated; a side whose
best price is `0` counts as empty, the result being the best price of the other side. -/
theorem price_rule (o : OrderBook) :
    (o.bids = [] ∧ o.asks = [] → o.GetPrice = 0) ∧
    (o.bids ≠ [] ∧ o.asks ≠ [] ∧ o.GetBestBid ≠ 0 ∧ o.GetBestAsk ≠ 0 →
      o.GetPrice = (o.GetBestBid + o.GetBestAsk) / 2) ∧
    (o.bids ≠ [] ∧ o.asks = [] → o.GetPrice = o.GetBestBid) ∧
    (o.bids = [] ∧ o.asks ≠ [] → o.GetPrice = o.GetBestAsk) ∧
    (o.GetBestBid = 0 → o.GetPrice = o.GetBestAsk) ∧
    (o.GetBestAsk = 0 → o.GetPrice = o.GetBestBid) := by
  have hzb : o.GetBestBid = 0 → o.GetPrice = o.GetBestAsk := by
    intro hb
    unfold OrderBook.GetPrice
    by_cases ha : o.GetBestAsk = 0
    · simp [hb, ha]
    · simp [hb, ha]
  have hza : o.GetBestAsk = 0 → o.GetPrice = o.GetBestBid := by
    intro ha
    unfold OrderBook.GetPrice
    by_cases hb : o.GetBestBid = 0
    · simp [hb, ha]
    · simp [hb, ha]
  have eb : o.bids = [] → o.GetBestBid = 0 := by
    intro h
    simp [OrderBook.GetBestBid, h]
  have ea : o.asks = [] → o.GetBestAsk = 0 := by
    intro h
    simp [OrderBook.GetBestAsk, h]
  refine ⟨?_, ?_, ?_, ?_, hzb, hza⟩
  · rintro ⟨h1, h2⟩
    rw [hzb (eb h1), ea h2]
  · rintro ⟨-, -, hb, ha⟩
    unfold OrderBook.GetPrice
    simp only [hb, ha, false_and, if_false, ne_eq, not_false_eq_true, and_self, if_true]
    ring
  · rintro ⟨-, h2⟩
    exact hza (ea h2)
  · rintro ⟨h1, -⟩
    exact hzb (eb h1)

/-- Witness for C14 (amended) -/
theorem price_rule_witness :
    exBook.bids ≠ [] ∧ exBook.asks ≠ [] ∧ exBook.GetBestBid ≠ 0 ∧ exBook.GetBestAsk ≠ 0 ∧
    exBook.GetPrice = (exBook.GetBestBid + exBook.GetBestAsk) / 2 :=
  ⟨by decide, by decide, by decide, by decide,
    (price_rule exBook).2.1 ⟨by decide, by decide, by decide, by decide⟩⟩

/-- C15: for a scale `s` with `0 <= s <= 7` the table entry `powersOf10[s]` is `10^s` and
`bcdToDouble` returns the integer part divided by `10^s`, over the rationals. -/
theorem bcdToDouble_value (env : Env) (m s : Int) (h0 : 0 ≤ s) (h7 : s ≤ 7) :
    powersOf10.get? s.toNat = some ((10 : Real) ^ s.toNat) ∧
    readPowersOf10 env (size_t_of s) = (10 : Real) ^ s.toNat ∧
    bcdToDouble env { intpart := m, scale := s } = (m : Real) / (10 : Real) ^ s.toNat := by
  interval_cases s <;>
    simp [bcdToDouble, readPowersOf10, size_t_of, powersOf10] <;> norm_num

/-- Witness for C15: integer part 12345 with scale 2 decodes to 123.45. -/
theorem bcdToDouble_value_witness :
    bcdToDouble env0 { intpart := 12345, scale := 2 } = 123.45 := by
  rw [(bcdToDouble_value env0 12345 2 (by decide) (by decide)).2.2]
  have h2 : Int.toNat 2 = 2 := rfl
  rw [h2]
  norm_num

/-- C16: evaluation at the failing input.  A price with scale `8`, or with scale `-1`,
is decoded without any error, the divisor being whatever lies past the table (here `1`);
the system `Add` carrying the price with scale `8` is accepted on the `Ready` book of
instrument 100 and puts a bid level at the decoded price. -/
theorem out_of_range_scale_is_decoded_and_applied :
    bcdToDouble env0 { intpart := 100, scale := 8 } = 100 ∧
    bcdToDouble env0 { intpart := 100, scale := -1 } = 100 ∧
    fullOrderLogCallback env0 (.CG_MSG_STREAM_DATA 0 (exAddScale 8)) exEngine =
      .ok { exEngine with
            orderBooks := [(100, { bids := [(100, 5)], asks := [], isConsistent := false,
                                   isReadyForAssembly := .Ready })] } := by
  have h8 : bcdToDouble env0 { intpart := 100, scale := 8 } = 100 := by
    simp [bcdToDouble, readPowersOf10, size_t_of, powersOf10, env0]
  have hm : bcdToDouble env0 { intpart := 100, scale := -1 } = 100 := by
    simp [bcdToDouble, readPowersOf10, size_t_of, powersOf10, env0]
  have hs : hasFlag 0 OrderStatusNonSystem = false := by decide
  refine ⟨h8, hm, ?_⟩
  simp only [env0] at h8
  simp [fullOrderLogCallback, env0, ordersLog, hs, exEngine, exAddScale, SMap.index,
    SMap.find, SMap.get, SMap.insert, SMap.erase, applyAction, OrderActionAdd,
    OrderBook.new, OrderBook.ProcessOrder, OrderBook.processBucket, h8]

/-- C17: on a book without a level of volume `0` a call of `ProcessOrder` leaves no level
of volume `0` on either side: the touched level is absent or not `0`, every other level
of its side and the whole opposite side are as before; so after any sequence of calls,
from that book or from the constructed (empty) book, no level has volume `0`. -/
theorem no_zero_level_retained (o : OrderBook) (bid increase : Bool) (price : Real)
    (volume amountRest : Int) (cs : List ProcessOrderCall)
    (hb : SMap.NoZero o.bids) (ha : SMap.NoZero o.asks) :
    SMap.NoZero (o.ProcessOrder bid increase price volume amountRest).bids ∧
    SMap.NoZero (o.ProcessOrder bid increase price volume amountRest).asks ∧
    SMap.find ((o.ProcessOrder bid increase price volume amountRest).side bid) price ≠
      some 0 ∧
    (∀ q, q ≠ price →
      SMap.find ((o.ProcessOrder bid increase price volume amountRest).side bid) q =
        SMap.find (o.side bid) q) ∧
    (o.ProcessOrder bid increase price volume amountRest).side (!bid) = o.side (!bid) ∧
    SMap.NoZero (o.applyCalls cs).bids ∧ SMap.NoZero (o.applyCalls cs).asks ∧
    SMap.NoZero (OrderBook.new.applyCalls cs).bids ∧
    SMap.NoZero (OrderBook.new.applyCalls cs).asks := by
  have hstep := OrderBook.NoZero_ProcessOrder bid increase price volume amountRest hb ha
  have hseq := OrderBook.NoZero_applyCalls cs hb ha
  have hnil : SMap.NoZero ([] : SMap Real Int) := fun x hx => by cases hx
  have hnew := @OrderBook.NoZero_applyCalls cs OrderBook.new hnil hnil
  refine ⟨hstep.1, hstep.2, ?_, ?_, ?_, hseq.1, hseq.2, hnew.1, hnew.2⟩
  · cases bid
    · simp only [OrderBook.ProcessOrder, OrderBook.side, Bool.false_eq_true, if_false]
      rw [OrderBook.find_processBucket_self]
      split
      · simp
      · rename_i hnv
        simpa using hnv
    · simp only [OrderBook.ProcessOrder, OrderBook.side, if_true]
      rw [OrderBook.find_processBucket_self]
      split
      · simp
      · rename_i hnv
        simpa using hnv
  · intro q hq
    cases bid
    · simp only [OrderBook.ProcessOrder, OrderBook.side, Bool.false_eq_true, if_false]
      exact OrderBook.find_processBucket_ne _ _ hq _ _
    · simp only [OrderBook.ProcessOrder, OrderBook.side, if_true]
      exact OrderBook.find_processBucket_ne _ _ hq _ _
  · cases bid <;> simp [OrderBook.ProcessOrder, OrderBook.side]

/-- Witness for C17: reducing the level `100 -> 3` by `3` removes it. -/
theorem no_zero_level_retained_witness :
    (exBookThree.ProcessOrder true false 100 3 (-1)).bids = [] ∧
    SMap.NoZero (exBookThree.ProcessOrder true false 100 3 (-1)).bids ∧
    SMap.NoZero (exBookThree.ProcessOrder true false 100 3 (-1)).asks :=
  ⟨by decide,
    (no_zero_level_retained exBookThree true false 100 3 (-1) []
      (by intro kv hkv; simp [exBookThree] at hkv; simp [hkv])
      (by intro kv hkv; simp [exBookThree] at hkv; simp [hkv])).1,
    (no_zero_level_retained exBookThree true false 100 3 (-1) []
      (by intro kv hkv; simp [exBookThree] at hkv; simp [hkv])
      (by intro kv hkv; simp [exBookThree] at hkv; simp [hkv])).2.1⟩

/-- C18: on a `Ready` book a system record for its instrument that is accepted (a delete
meeting `amount > 0` and `amount_rest = 0`, or any other action) leaves the consistent
flag `false`, whatever it was.  No call turns the flag of an existing book from `false`
to `true` except a commit on a book that is `Ready`, and a book created by a call has the
flag `false`. -/
theorem consistent_flag_cleared (env : Env) (s : Engine) (ol : orders_log) (o : OrderBook)
    (h : s.book ol.isin_id = some o) (hr : o.isReadyForAssembly = .Ready)
    (hsys : hasFlag ol.status OrderStatusNonSystem = false)
    (hacc : ol.action = OrderActionDelete → 0 < ol.amount ∧ ol.amount_rest = 0) :
    (∃ s1 o1, fullOrderLogCallback env (.CG_MSG_STREAM_DATA env.orders_log_index ol) s = .ok s1 ∧
      s1.book ol.isin_id = some o1 ∧ o1.isConsistent = false) ∧
    (∀ (msg : cg_msg_t) (t : Engine) (id : Int) (b b' : OrderBook),
      t.book id = some b → (fullOrderLogCallback env msg t).state.book id = some b' →
      b'.isConsistent = true →
      b.isConsistent = true ∨ (msg = .CG_MSG_TN_COMMIT ∧ b.isReadyForAssembly = .Ready)) ∧
    (∀ (msg : cg_msg_t) (t : Engine) (id : Int) (b' : OrderBook),
      t.book id = none → (fullOrderLogCallback env msg t).state.book id = some b' →
      b'.isConsistent = false) := by
  unfold Engine.book at *
  refine ⟨?_, ?_, ?_⟩
  · obtain ⟨o1, ho1⟩ := applyAction_isSome_of_contract o (decide (ol.dir = 1))
      (bcdToDouble env ol.price) ol hacc
    have hcb : fullOrderLogCallback env (.CG_MSG_STREAM_DATA env.orders_log_index ol) s =
        .ok { s with orderBooks :=
                (SMap.insert ol.isin_id { o1 with isConsistent := false } s.orderBooks) } := by
      simp only [fullOrderLogCallback, if_true, ordersLog, SMap.index_of_find _ h,
        SMap.get_of_find _ h, hsys, hr, ho1, Bool.false_eq_true, not_false_eq_true]
    exact ⟨_, { o1 with isConsistent := false }, hcb, SMap.find_insert_self _ _ _, rfl⟩
  · intro msg t id b b' hb hb' ht
    cases msg with
    | CG_MSG_TN_COMMIT =>
      simp only [fullOrderLogCallback, Outcome.state, find_commit_books, hb, Option.map_some',
        Option.some.injEq] at hb'
      subst hb'
      rcases commitBookOf_consistent b ht with hc | hc
      · exact Or.inl hc
      · exact Or.inr ⟨rfl, hc⟩
    | CG_MSG_STREAM_DATA idx r =>
      left
      by_cases hi : idx = env.orders_log_index
      · simp only [fullOrderLogCallback, hi, if_true] at hb'
        by_cases hid : id = r.isin_id
        · subst hid
          rw [ordersLog_find_self, SMap.get_of_find _ hb, Option.some.injEq] at hb'
          subst hb'
          exact bookAfter_consistent env r b ht
        · rw [ordersLog_find_ne env r t hid, hb, Option.some.injEq] at hb'
          subst hb'
          exact ht
      · simp only [fullOrderLogCallback, hi, if_false, Outcome.state, hb,
          Option.some.injEq] at hb'
        subst hb'
        exact ht
    | other =>
      left
      simp only [fullOrderLogCallback, Outcome.state, hb, Option.some.injEq] at hb'
      subst hb'
      exact ht
  · intro msg t id b' hb hb'
    cases msg with
    | CG_MSG_TN_COMMIT =>
      simp [fullOrderLogCallback, Outcome.state, find_commit_books, hb] at hb'
    | CG_MSG_STREAM_DATA idx r =>
      by_cases hi : idx = env.orders_log_index
      · simp only [fullOrderLogCallback, hi, if_true] at hb'
        by_cases hid : id = r.isin_id
        · subst hid
          have hget : SMap.get t.orderBooks r.isin_id OrderBook.new = OrderBook.new := by
            simp [SMap.get, hb]
          rw [ordersLog_find_self, hget, Option.some.injEq] at hb'
          subst hb'
          cases hc : (bookAfter env r OrderBook.new).isConsistent with
          | false => rfl
          | true =>
            have := bookAfter_consistent env r OrderBook.new hc
            simp [OrderBook.new] at this
        · rw [ordersLog_find_ne env r t hid, hb] at hb'
          cases hb'
      · simp [fullOrderLogCallback, hi, Outcome.state, hb] at hb'
    | other =>
      simp [fullOrderLogCallback, Outcome.state, hb] at hb'

/-- Witness for C18 -/
theorem consistent_flag_cleared_witness :
    ∃ s1 o1, fullOrderLogCallback env0 (.CG_MSG_STREAM_DATA env0.orders_log_index exReduce)
        exEngineTen = .ok s1 ∧
      s1.book exReduce.isin_id = some o1 ∧ o1.isConsistent = false :=
  (consistent_flag_cleared env0 exEngineTen exReduce
    { bids := [(100, 10)], asks := [], isConsistent := false, isReadyForAssembly := .Ready }
    (by decide) rfl (by decide) (by decide)).1

/-- C19: when a record for one instrument and then a record for another instrument are
both accepted, the same two records in the opposite order are both accepted as well and
leave the same engine state; a record leaves the book of every other instrument as it
was. -/
theorem reorder_across_instruments (env : Env) (s t : Engine) (r1 r2 : orders_log)
    (hne : r1.isin_id ≠ r2.isin_id)
    (hacc : run env [.CG_MSG_STREAM_DATA env.orders_log_index r1,
                     .CG_MSG_STREAM_DATA env.orders_log_index r2] s = .ok t) :
    run env [.CG_MSG_STREAM_DATA env.orders_log_index r2,
             .CG_MSG_STREAM_DATA env.orders_log_index r1] s = .ok t ∧
    (∀ j, j ≠ r1.isin_id →
      (fullOrderLogCallback env (.CG_MSG_STREAM_DATA env.orders_log_index r1) s).state.book j =
        s.book j) ∧
    (∀ j, j ≠ r2.isin_id →
      (fullOrderLogCallback env (.CG_MSG_STREAM_DATA env.orders_log_index r2) s).state.book j =
        s.book j) := by
  have hne' : r2.isin_id ≠ r1.isin_id := fun e => hne e.symm
  refine ⟨?_, ?_, ?_⟩
  · rw [run_two_records env s r1 r2 hne] at hacc
    rw [run_two_records env s r2 r1 hne']
    cases h1 : recordAborts env r1 (SMap.get s.orderBooks r1.isin_id OrderBook.new) with
    | true => simp [h1] at hacc
    | false =>
      cases h2 : recordAborts env r2 (SMap.get s.orderBooks r2.isin_id OrderBook.new) with
      | true => simp [h1, h2] at hacc
      | false =>
        simp only [h1, h2, Bool.false_eq_true, if_false] at hacc ⊢
        rw [← hacc, writeBook_comm hne]
  · intro j hj
    unfold Engine.book
    rw [callback_ordersLog]
    exact ordersLog_find_ne env r1 s hj
  · intro j hj
    unfold Engine.book
    rw [callback_ordersLog]
    exact ordersLog_find_ne env r2 s hj

/-- Witness for C19: an `Add` for instrument 100 and an `Add` for instrument 200. -/
theorem reorder_across_instruments_witness :
    run env0 [.CG_MSG_STREAM_DATA env0.orders_log_index exAddOther,
              .CG_MSG_STREAM_DATA env0.orders_log_index (exAddScale 0)] exEngineTwo =
      .ok { exEngineTwo with
            orderBooks :=
              [(100, { bids := [(100, 5)], asks := [], isConsistent := false,
                       isReadyForAssembly := .Ready }),
               (200, { bids := [], asks := [(101, 2)], isConsistent := false,
                       isReadyForAssembly := .Ready })] } := by
  have hs : hasFlag 0 OrderStatusNonSystem = false := by decide
  refine (reorder_across_instruments env0 exEngineTwo _ (exAddScale 0) exAddOther
    (by decide) ?_).1
  simp [run, fullOrderLogCallback, env0, ordersLog, hs, exEngineTwo, exAddScale, exAddOther,
    SMap.index, SMap.find, SMap.get, SMap.insert, SMap.erase, applyAction, OrderActionAdd,
    OrderBook.new, OrderBook.ProcessOrder, OrderBook.processBucket, bcdToDouble,
    readPowersOf10, size_t_of, powersOf10]

/-- C20: on a book with well-formed ladders and no level of volume `0`,
`ProcessOrder` with `increase = true` and `amountRest = -1` followed by `ProcessOrder`
with `increase = false`, the same side, price and amount and `amountRest = -1` gives back
the book it started from, with both ladders exactly as they were, for an amount of any
sign. -/
theorem add_reduce_round_trip (o : OrderBook) (bid : Bool) (price : Real) (amount : Int)
    (hwb : SMap.WF o.bids) (hwa : SMap.WF o.asks)
    (hb : SMap.NoZero o.bids) (ha : SMap.NoZero o.asks) :
    (o.ProcessOrder bid true price amount (-1)).ProcessOrder bid false price amount (-1) = o ∧
    ((o.ProcessOrder bid true price amount (-1)).ProcessOrder bid false price amount (-1)).bids =
      o.bids ∧
    ((o.ProcessOrder bid true price amount (-1)).ProcessOrder bid false price amount (-1)).asks =
      o.asks := by
  have key : (o.ProcessOrder bid true price amount (-1)).ProcessOrder bid false price amount
      (-1) = o := by
    cases bid
    · simp only [OrderBook.ProcessOrder, Bool.false_eq_true, if_false]
      rw [OrderBook.processBucket_round_trip price amount hwa ha]
    · simp only [OrderBook.ProcessOrder, if_true]
      rw [OrderBook.processBucket_round_trip price amount hwb hb]
  exact ⟨key, by rw [key], by rw [key]⟩

/-- Witness for C20: adding `-3` to the level `100 -> 3` erases it, and reducing by `-3`
brings it back. -/
theorem add_reduce_round_trip_witness :
    (exBookThree.ProcessOrder true true 100 (-3) (-1)).bids = [] ∧
    (exBookThree.ProcessOrder true true 100 (-3) (-1)).ProcessOrder true false 100 (-3) (-1) =
      exBookThree :=
  ⟨by decide,
    (add_reduce_round_trip exBookThree true 100 (-3) (by decide) (by decide)
      (by intro kv hkv; simp [exBookThree] at hkv; simp [hkv])
      (by intro kv hkv; simp [exBookThree] at hkv; simp [hkv])).1⟩

end QF101
